import Mathlib

/-! Aggregation pipeline of the Nigeria oil and gas infrastructure server

A shallow embedding of `src/server.js`: the two collaborator wrappers
`searchPlaces` and `getPlaceDetails`, the `/api/infrastructure` handler with its
nested sweep over `INFRASTRUCTURE_TYPES` and `NIGERIA_LOCATIONS`, and the
`filter`/`findIndex` deduplication.

The outside world is a function `Http` answering each `axios.get` request.
The handler is a pure function of that world and of the configured key; it
returns the response together with the sequence of external effects it caused
(requests and pauses).  Console output is not part of the trace.
-/

namespace OilGasInfra

/-! ## Constants of `server.js` -/

/-- The array `INFRASTRUCTURE_TYPES` (server.js lines 19-26). -/
def INFRASTRUCTURE_TYPES : List String :=
  [ "gas processing plant",
    "crude oil refinery",
    "flow station",
    "pipeline",
    "liquefaction plant",
    "CNG mother station" ]

/-- The array `NIGERIA_LOCATIONS` (server.js lines 29-40). -/
def NIGERIA_LOCATIONS : List String :=
  [ "Lagos, Nigeria",
    "Port Harcourt, Nigeria",
    "Warri, Nigeria",
    "Kaduna, Nigeria",
    "Calabar, Nigeria",
    "Bonny, Nigeria",
    "Escravos, Nigeria",
    "Forcados, Nigeria",
    "Brass, Nigeria",
    "Qua Iboe, Nigeria" ]

/-! ## Data model

A JavaScript property that is `undefined` (or missing) is `none`.  Numbers are
only carried through, never computed with; they are represented by integers
(fixed-point degrees). -/

/-- The object `details.geometry.location`. -/
structure LatLng where
  lat : Option Int
  lng : Option Int
  deriving DecidableEq, Repr

/-- The object `details.geometry`. -/
structure Geometry where
  location : Option LatLng
  deriving DecidableEq, Repr

/-- A truthy `response.data.result` of the Place Details service, with the
properties the handler reads. -/
structure Details where
  name : Option String
  formatted_address : Option String
  geometry : Option Geometry
  types : Option (List String)
  website : Option String
  formatted_phone_number : Option String
  deriving DecidableEq, Repr

/-- A candidate of a text search.  Only `place_id` is read by the server. -/
structure Place where
  place_id : Option String
  deriving DecidableEq, Repr

/-- The `coordinates` object of a facility. -/
structure Coordinates where
  lat : Option Int
  lng : Option Int
  deriving DecidableEq, Repr

/-- The object pushed onto `allInfrastructure` (server.js lines 101-114). -/
structure Facility where
  id : Option String
  name : Option String
  address : Option String
  type : String
  location : String
  coordinates : Coordinates
  types : Option (List String)
  website : Option String
  phone : Option String
  deriving DecidableEq, Repr

/-- A truthy value of `response.data.results`: an array whose entries are
candidates or `null` (`none`; a parsed JSON array holds no `undefined`), or some
other truthy value that cannot be iterated by `for ... of`. -/
inductive Results where
  | array (items : List (Option Place))
  | other
  deriving DecidableEq, Repr

/-- The body `response.data` of a resolved request: `results` is `none` when the
property is falsy (so that `|| []` applies), `result` is `none` when the property
is falsy (so that `|| null` applies). -/
structure ResponseData where
  results : Option Results
  result : Option Details
  deriving DecidableEq, Repr

/-- An `axios.get` call: the URL and the `params` object. -/
structure Request where
  url : String
  params : List (String × Option String)
  deriving DecidableEq, Repr

/-- What awaiting `axios.get` does: it throws (network failure, error status,
or a body on which the property read inside the `try` throws), or it resolves
with a body. -/
inductive AxiosResult where
  | rejected (message : String)
  | resolved (data : ResponseData)
  deriving DecidableEq, Repr

/-- The outside world: the answer to every request. -/
abbrev Http := Request → AxiosResult

/-- An external effect of the handler. -/
inductive Effect where
  | get (req : Request)
  | sleep (ms : Nat)
  deriving DecidableEq, Repr

/-- A value of a JSON response body. -/
inductive Json where
  | bool (b : Bool)
  | num (n : Nat)
  | str (s : String)
  | facilities (items : List Facility)
  deriving DecidableEq, Repr

/-- What the handler sends: the HTTP status and the fields of the JSON body, in
the order of the object literal. -/
structure Response where
  status : Nat
  body : List (String × Json)
  deriving DecidableEq, Repr

/-! ## The collaborator wrappers -/

/-- The request of `searchPlaces(query, location)` (server.js lines 45-51). -/
def searchRequest (key : Option String) (query location : String) : Request :=
  { url := "https://maps.googleapis.com/maps/api/place/textsearch/json",
    params := [("query", some (query ++ " " ++ location)),
               ("key", key),
               ("type", some "establishment")] }

/-- The request of `getPlaceDetails(placeId)` (server.js lines 63-69). -/
def detailsRequest (key : Option String) (placeId : Option String) : Request :=
  { url := "https://maps.googleapis.com/maps/api/place/details/json",
    params := [("place_id", placeId),
               ("key", key),
               ("fields", some "name,formatted_address,geometry,types,website,formatted_phone_number")] }

/-- The value `searchPlaces` returns: `response.data.results || []`, and `[]`
when the request throws (server.js lines 43-58). -/
def searchPlaces (http : Http) (key : Option String) (query location : String) : Results :=
  match http (searchRequest key query location) with
  | .resolved data => data.results.getD (.array [])
  | .rejected _ => .array []

/-- The value `getPlaceDetails` returns: `response.data.result || null`, and
`null` when the request throws (server.js lines 61-76). -/
def getPlaceDetails (http : Http) (key : Option String) (placeId : Option String) :
    Option Details :=
  match http (detailsRequest key placeId) with
  | .resolved data => data.result
  | .rejected _ => none

/-! ## The handler of `/api/infrastructure` -/

/-- The object literal of server.js lines 101-114.  The optional chain
`details.geometry?.location?.lat` is `Option.bind`. -/
def mkFacility (infrastructureType location : String) (place : Place) (details : Details) :
    Facility :=
  { id := place.place_id,
    name := details.name,
    address := details.formatted_address,
    type := infrastructureType,
    location := location,
    coordinates :=
      { lat := (details.geometry.bind (·.location)).bind (·.lat),
        lng := (details.geometry.bind (·.location)).bind (·.lng) },
    types := details.types,
    website := details.website,
    phone := details.formatted_phone_number }

/-- The mutable state of a sweep: the array `allInfrastructure` and the effects
caused so far. -/
structure Sweep where
  allInfrastructure : List Facility
  trace : List Effect
  deriving DecidableEq, Repr

/-- How a loop ends: normally, or by a thrown error that leaves the loop. -/
inductive Outcome where
  | completed (s : Sweep)
  | threw (message : String) (trace : List Effect)
  deriving DecidableEq, Repr

/-- The message of the `TypeError` that Node raises on reading `place_id` of a
`null` candidate; the property name stands between single quotes (`\x27`). -/
def nullCandidateMessage : String :=
  "Cannot read properties of null (reading \x27place_id\x27)"

/-- The message of the `TypeError` that Node raises on iterating a value that
is not iterable. -/
def notIterableMessage : String := "places is not iterable"

/-- The loop `for (const place of places)` (server.js lines 96-116). -/
def placesLoop (http : Http) (key : Option String) (infrastructureType location : String) :
    List (Option Place) → Sweep → Outcome
  | [], s => .completed s
  | none :: _, s => .threw nullCandidateMessage s.trace
  | some place :: rest, s =>
    let trace := s.trace ++ [Effect.get (detailsRequest key place.place_id)]
    match getPlaceDetails http key place.place_id with
    | some details =>
      placesLoop http key infrastructureType location rest
        { allInfrastructure :=
            s.allInfrastructure ++ [mkFacility infrastructureType location place details],
          trace := trace }
    | none =>
      placesLoop http key infrastructureType location rest
        { allInfrastructure := s.allInfrastructure, trace := trace }

/-- The loop `for (const location of NIGERIA_LOCATIONS)` (server.js lines
91-120): one search, the loop over its candidates, then the pause. -/
def locationsLoop (http : Http) (key : Option String) (infrastructureType : String) :
    List String → Sweep → Outcome
  | [], s => .completed s
  | location :: rest, s =>
    let trace := s.trace ++ [Effect.get (searchRequest key infrastructureType location)]
    match searchPlaces http key infrastructureType location with
    | .other => .threw notIterableMessage trace
    | .array places =>
      match placesLoop http key infrastructureType location places
          { allInfrastructure := s.allInfrastructure, trace := trace } with
      | .threw message t => .threw message t
      | .completed s1 =>
        locationsLoop http key infrastructureType rest
          { allInfrastructure := s1.allInfrastructure,
            trace := s1.trace ++ [Effect.sleep 1000] }

/-- The loop `for (const infrastructureType of INFRASTRUCTURE_TYPES)`
(server.js lines 90-121), over a list of types and a list of locations. -/
def typesLoop (http : Http) (key : Option String) (locations : List String) :
    List String → Sweep → Outcome
  | [], s => .completed s
  | infrastructureType :: rest, s =>
    match locationsLoop http key infrastructureType locations s with
    | .threw message t => .threw message t
    | .completed s1 => typesLoop http key locations rest s1

/-- The method `Array.prototype.findIndex`, counting from index `i`: the index
of the first element satisfying `p`, or `-1`. -/
def findIndexFrom {α : Type} (p : α → Bool) : List α → Nat → Int
  | [], _ => -1
  | x :: xs, i => if p x then (i : Int) else findIndexFrom p xs (i + 1)

/-- The method `Array.prototype.findIndex`. -/
def findIndex {α : Type} (p : α → Bool) (self : List α) : Int :=
  findIndexFrom p self 0

/-- The deduplication of server.js lines 124-126:
`allInfrastructure.filter((item, index, self) =>
   index === self.findIndex(t => t.id === item.id))`. -/
def uniqueInfrastructure (allInfrastructure : List Facility) : List Facility :=
  (allInfrastructure.enum.filter
      (fun (entry : Nat × Facility) =>
        decide ((entry.1 : Int)
          = findIndex (fun t => decide (t.id = entry.2.id)) allInfrastructure))).map
    Prod.snd

/-- The test `!GOOGLE_MAPS_API_KEY`: the key is `undefined` or the empty
string. -/
def keyMissing (key : Option String) : Bool :=
  match key with
  | none => true
  | some k => decide (k = "")

/-- The body sent when the key is missing (server.js lines 82-84). -/
def configErrorResponse : Response :=
  { status := 500,
    body := [("error", .str ("Google Maps API key not configured. " ++
      "Please set GOOGLE_MAPS_API_KEY in your environment variables."))] }

/-- The body sent from the `catch` block (server.js lines 136-139). -/
def failureResponse (message : String) : Response :=
  { status := 500,
    body := [("error", .str "Failed to fetch infrastructure data"),
             ("details", .str message)] }

/-- The body sent after a completed sweep (server.js lines 128-132). -/
def successResponse (uniqueInfrastructure : List Facility) : Response :=
  { status := 200,
    body := [("success", .bool true),
             ("count", .num uniqueInfrastructure.length),
             ("data", .facilities uniqueInfrastructure)] }

/-- The handler of `GET /api/infrastructure` (server.js lines 79-141): the
response and the effects caused, for a world `http` and the value `key` of
`GOOGLE_MAPS_API_KEY`. -/
def handler (http : Http) (key : Option String) : Response × List Effect :=
  if keyMissing key then (configErrorResponse, [])
  else
    match typesLoop http key NIGERIA_LOCATIONS INFRASTRUCTURE_TYPES
        { allInfrastructure := [], trace := [] } with
    | .threw message trace => (failureResponse message, trace)
    | .completed s => (successResponse (uniqueInfrastructure s.allInfrastructure), s.trace)

/-! ## Reference definitions

The deduplication and the sweep as the specification words them, the
conditions under which a sweep completes, and example worlds. -/

/-- Keeping the first facility seen for each identifier, in one scan in append
order; `seen` holds the identifiers met so far. -/
def keepFirstSeen (seen : List (Option String)) : List Facility → List Facility
  | [] => []
  | f :: rest =>
    if f.id ∈ seen then keepFirstSeen seen rest
    else f :: keepFirstSeen (f.id :: seen) rest

/-- The deduplication as the specification words it: scan in original append
order, keep only the first facility seen for each identifier. -/
def keepFirstById (flat : List Facility) : List Facility :=
  keepFirstSeen [] flat

/-- A search result the sweep can iterate without throwing: an array without
`null` entries. -/
def resultsOk : Results → Bool
  | .array items => items.all Option.isSome
  | .other => false

/-- Whether every search of the sweep over `types` and `locations` yields a
result the loop can iterate. -/
def sweepOk (http : Http) (key : Option String) (locations types : List String) : Bool :=
  types.all fun c => locations.all fun l => resultsOk (searchPlaces http key c l)

/-- Every search of the handler's sweep yields an array of candidates. -/
def WellFormed (http : Http) (key : Option String) : Prop :=
  sweepOk http key NIGERIA_LOCATIONS INFRASTRUCTURE_TYPES = true

instance (http : Http) (key : Option String) : Decidable (WellFormed http key) := by
  unfold WellFormed
  infer_instance

/-- The candidate list of the combination `(c, l)`: the entries of the array
`searchPlaces` returns. -/
def candidates (http : Http) (key : Option String) (c l : String) : List Place :=
  match searchPlaces http key c l with
  | .array items => items.filterMap id
  | .other => []

/-- The facilities built from the candidates of the combination `(c, l)`, in
search-result order, skipping the candidates whose details are absent. -/
def comboFacilities (http : Http) (key : Option String) (c l : String) : List Facility :=
  (candidates http key c l).filterMap fun place =>
    (getPlaceDetails http key place.place_id).map (mkFacility c l place)

/-- The concatenation of the facilities of all combinations, over `types` in
order (outer) and `locations` in order (inner). -/
def sweepConcatOver (http : Http) (key : Option String) (locations types : List String) :
    List Facility :=
  types.flatMap fun c => locations.flatMap fun l => comboFacilities http key c l

/-- The concatenation over `INFRASTRUCTURE_TYPES` (outer) and
`NIGERIA_LOCATIONS` (inner). -/
def sweepConcat (http : Http) (key : Option String) : List Facility :=
  sweepConcatOver http key NIGERIA_LOCATIONS INFRASTRUCTURE_TYPES

/-- Whether a loop ended normally. -/
def Outcome.isCompleted : Outcome → Bool
  | .completed _ => true
  | .threw _ _ => false

/-- The array `allInfrastructure` a loop ended with, when it ended normally. -/
def Outcome.flat : Outcome → List Facility
  | .completed s => s.allInfrastructure
  | .threw _ _ => []

/-- The combinations in sweep order: types outer, locations inner. -/
def sweepOrder : List (String × String) :=
  INFRASTRUCTURE_TYPES.flatMap fun c => NIGERIA_LOCATIONS.map fun l => (c, l)

/-- Details used by the example worlds. -/
def demoDetails : Details :=
  { name := some "Plant",
    formatted_address := some "1 Marina Road",
    geometry := none,
    types := none,
    website := none,
    formatted_phone_number := none }

/-- The key of the example worlds. -/
def demoKey : Option String := some "k"

/-- An example world: the identifier `X` is returned by (gas processing plant,
Lagos) together with `Y`, and again by (pipeline, Warri); details exist for `X`
only; every other request fails. -/
def demoHttp : Http := fun req =>
  if req = searchRequest demoKey "gas processing plant" "Lagos, Nigeria" then
    .resolved { results := some (.array [some ⟨some "X"⟩, some ⟨some "Y"⟩]), result := none }
  else if req = searchRequest demoKey "pipeline" "Warri, Nigeria" then
    .resolved { results := some (.array [some ⟨some "X"⟩]), result := none }
  else if req = detailsRequest demoKey (some "X") then
    .resolved { results := none, result := some demoDetails }
  else .rejected "Network Error"

/-- The effects a loop caused, however it ended. -/
def Outcome.effects : Outcome → List Effect
  | .completed s => s.trace
  | .threw _ trace => trace

/-- The effects of one combination of a sweep that completes: the search, one
detail request per candidate in search-result order, then the pause. -/
def comboTrace (http : Http) (key : Option String) (c l : String) : List Effect :=
  Effect.get (searchRequest key c l)
    :: ((candidates http key c l).map fun place => Effect.get (detailsRequest key place.place_id))
    ++ [Effect.sleep 1000]

/-- The effects of a sweep that completes, over `types` (outer) and `locations`
(inner). -/
def sweepTraceOver (http : Http) (key : Option String) (locations types : List String) :
    List Effect :=
  types.flatMap fun c => locations.flatMap fun l => comboTrace http key c l

/-- A world in which every search resolves with an empty array. -/
def emptyHttp : Http := fun _ =>
  .resolved { results := some (.array []), result := none }

/-- The world `http` in which the request `req` throws with `message`. -/
def failingAt (http : Http) (req : Request) (message : String) : Http := fun r =>
  if r = req then .rejected message else http r

/-- An example world in which every search succeeds: the combination (flow
station, Bonny) returns `B` and `X`, the combination (pipeline, Warri) returns
`X` and `W`; details exist for every identifier. -/
def bonnyHttp : Http := fun req =>
  if req = searchRequest demoKey "flow station" "Bonny, Nigeria" then
    .resolved { results := some (.array [some ⟨some "B"⟩, some ⟨some "X"⟩]), result := none }
  else if req = searchRequest demoKey "pipeline" "Warri, Nigeria" then
    .resolved { results := some (.array [some ⟨some "X"⟩, some ⟨some "W"⟩]), result := none }
  else .resolved { results := none, result := some demoDetails }

/-- The world `emptyHttp` with the search for (flow station, Bonny) throwing. -/
def emptyBonnyDownHttp : Http :=
  failingAt emptyHttp (searchRequest demoKey "flow station" "Bonny, Nigeria") "Network Error"

/-- The world `bonnyHttp` with the search for (flow station, Bonny) throwing. -/
def bonnyDownHttp : Http :=
  failingAt bonnyHttp (searchRequest demoKey "flow station" "Bonny, Nigeria") "Network Error"

/-- A world whose first search returns an array holding a `null` candidate. -/
def nullCandidateHttp : Http := fun _ =>
  .resolved { results := some (.array [none]), result := none }

/-- Whether an effect is a request to the Place Search (text search) service. -/
def Effect.isSearchCall : Effect → Bool
  | .get req => decide (req.url = "https://maps.googleapis.com/maps/api/place/textsearch/json")
  | .sleep _ => false

/-- Whether an effect is a pause. -/
def Effect.isSleep : Effect → Bool
  | .get _ => false
  | .sleep _ => true

/-- The detail requests of the combination `(c, l)`, one per candidate in
search-result order. -/
def detailCalls (http : Http) (key : Option String) (c l : String) : List Effect :=
  (candidates http key c l).map fun place => Effect.get (detailsRequest key place.place_id)

/-- Where the loop over a search result throws, if it does: the message of the
error and the candidates whose details were requested before it.  A value that
cannot be iterated throws at once; an array throws at its first `null` entry. -/
def throwPoint : Results → Option (String × List Place)
  | .other => some (notIterableMessage, [])
  | .array items =>
    if items.all Option.isSome then none
    else some (nullCandidateMessage, (items.takeWhile Option.isSome).filterMap id)

/-- An example world in which the sweep throws in its second combination: the
search for (gas processing plant, Lagos) returns `X`, the search for (gas
processing plant, Port Harcourt) returns `A`, a `null` entry, then `B`; details
exist for every identifier. -/
def abortHttp : Http := fun req =>
  if req = searchRequest demoKey "gas processing plant" "Lagos, Nigeria" then
    .resolved { results := some (.array [some ⟨some "X"⟩]), result := none }
  else if req = searchRequest demoKey "gas processing plant" "Port Harcourt, Nigeria" then
    .resolved { results := some (.array [some ⟨some "A"⟩, none, some ⟨some "B"⟩]),
                result := none }
  else .resolved { results := none, result := some demoDetails }

/-- One step of the single pass of the design notes: `state.1` is the mapping
from identifier to first-seen facility, `state.2` the facilities emitted so far;
a facility is emitted, and entered into the mapping, only when its id is not yet
in the mapping. -/
def firstSeenStep (state : List (Option String × Facility) × List Facility) (f : Facility) :
    List (Option String × Facility) × List Facility :=
  match state.1.lookup f.id with
  | some _ => state
  | none => ((f.id, f) :: state.1, state.2 ++ [f])

/-- The deduplication as the design notes word it: a single left-to-right pass
over the flat list that maintains a mapping from identifier to first-seen
facility. -/
def dedupByMapping (flat : List Facility) : List Facility :=
  (flat.foldl firstSeenStep ([], [])).2

/-- Details of a place without geometry. -/
def noGeometryDetails : Details :=
  { name := some "Depot",
    formatted_address := some "2 Creek Road",
    geometry := none,
    types := some ["establishment"],
    website := none,
    formatted_phone_number := some "0800" }

/-! ## The client (`public/script.js`) -/

/-- An entry of the table `infrastructureTypes` (script.js lines 8-39). -/
structure TypeConfig where
  color : String
  icon : String
  filterId : String
  deriving DecidableEq, Repr

/-- The table `infrastructureTypes` (script.js lines 8-39), its keys in the order
of the object literal, which is the order of `Object.entries`. -/
def infrastructureTypes : List (String × TypeConfig) :=
  [
    ("gas processing plant", { color := "#28a745", icon := "🏭", filterId := "filter-gas-processing" }),
    ("crude oil refinery", { color := "#dc3545", icon := "⚡", filterId := "filter-refineries" }),
    ("flow station", { color := "#ffc107", icon := "🛢️", filterId := "filter-flow-stations" }),
    ("pipeline", { color := "#17a2b8", icon := "🔗", filterId := "filter-pipelines" }),
    ("liquefaction plant", { color := "#6f42c1", icon := "❄️", filterId := "filter-liquefaction" }),
    ("CNG mother station", { color := "#fd7e14", icon := "⛽", filterId := "filter-cng-stations" }) ]

/-- The value `typeConfig` of `createMarker` (script.js line 167): the entry of
the table for `facility.type` or else the entry for the gas processing plant;
`none` is `undefined`.  Only the keys written in the table are looked up; the
types the server sends are among its six strings. -/
def markerTypeConfig (facility : Facility) : Option TypeConfig :=
  match infrastructureTypes.lookup facility.type with
  | some typeConfig => some typeConfig
  | none => infrastructureTypes.lookup "gas processing plant"

/-- Whether `createMarker` takes the right-hand side of `||`: the table has no
entry for the type of the facility. -/
def usesDefaultStyle (facility : Facility) : Bool :=
  (infrastructureTypes.lookup facility.type).isNone

/-- The marker `createMarker` builds, with the properties that depend on the
facility (script.js lines 166-194). -/
structure Marker where
  position : Coordinates
  title : Option String
  fillColor : String
  labelText : String
  facility : Facility
  deriving DecidableEq, Repr

/-- The function `createMarker` (script.js lines 166-194); `none` when reading
`typeConfig.color` would throw. -/
def createMarker (facility : Facility) : Option Marker :=
  (markerTypeConfig facility).map fun typeConfig =>
    { position := { lat := facility.coordinates.lat, lng := facility.coordinates.lng },
      title := facility.name,
      fillColor := typeConfig.color,
      labelText := typeConfig.icon,
      facility := facility }

/-- The state of the filter checkboxes: for an element id, `none` when
`document.getElementById` finds no element, else its `checked` property. -/
abbrev Dom := String → Option Bool

/-- The array `visibleTypes` of `updateSidebar` (script.js lines 245-252): the
keys whose checkbox exists and is checked, in table order. -/
def visibleTypes (dom : Dom) : List String :=
  (infrastructureTypes.filter fun entry => decide (dom entry.2.filterId = some true)).map
    Prod.fst

/-- What `updateSidebar` shows: the two counters and the list handed to
`updateFacilitiesList`. -/
structure Sidebar where
  totalCount : Nat
  visibleCount : Nat
  facilities : List Facility
  deriving DecidableEq, Repr

/-- The function `updateSidebar` (script.js lines 244-264) for the facility list
`infrastructureData`. -/
def updateSidebar (dom : Dom) (infrastructureData : List Facility) : Sidebar :=
  let visibleFacilities :=
    infrastructureData.filter fun facility => decide (facility.type ∈ visibleTypes dom)
  { totalCount := infrastructureData.length,
    visibleCount := visibleFacilities.length,
    facilities := visibleFacilities }

/-- The state in which all six filter checkboxes exist and are checked. -/
def allChecked : Dom := fun _ => some true

/-- A state in which only the pipeline checkbox is checked. -/
def onlyPipelines : Dom := fun id => some (decide (id = "filter-pipelines"))

/-! ## Timeline of a run

Every external call of `server.js` and the pause stand under `await`: the
handler is suspended from the moment the operation starts until it completes.
The timeline records both moments. -/

/-- A moment of a run of the handler: an `axios.get` call is issued, its promise
settles (resolved or rejected), the timer of the pause is set, the timer fires. -/
inductive Step where
  | issued (req : Request)
  | settled (req : Request)
  | timerSet (ms : Nat)
  | timerFired (ms : Nat)
  deriving DecidableEq, Repr

/-- The moments of `await axios.get(...)` (server.js lines 45 and 63, awaited
again at lines 94 and 98): the call is issued and the function resumes only
when it has settled. -/
def awaitCall (req : Request) : List Step :=
  [.issued req, .settled req]

/-- The moments of `await new Promise(resolve => setTimeout(resolve, ms))`
(server.js line 119): the timer is set and the function resumes only when it
has fired. -/
def awaitTimer (ms : Nat) : List Step :=
  [.timerSet ms, .timerFired ms]

/-- The timeline of the loop `for (const place of places)` and whether it ends
normally (server.js lines 96-116): one awaited detail call per candidate, until
a `null` candidate throws. -/
def placesTimeline (key : Option String) : List (Option Place) → List Step × Bool
  | [] => ([], true)
  | none :: _ => ([], false)
  | some place :: rest =>
    ((awaitCall (detailsRequest key place.place_id)) ++ (placesTimeline key rest).1,
      (placesTimeline key rest).2)

/-- The timeline of the loop over the locations and whether it ends normally
(server.js lines 91-120): the awaited search, the loop over its candidates, then
the awaited pause. -/
def locationsTimeline (http : Http) (key : Option String) (infrastructureType : String) :
    List String → List Step × Bool
  | [] => ([], true)
  | location :: rest =>
    match searchPlaces http key infrastructureType location with
    | .other => (awaitCall (searchRequest key infrastructureType location), false)
    | .array places =>
      if (placesTimeline key places).2 then
        (awaitCall (searchRequest key infrastructureType location)
            ++ (placesTimeline key places).1 ++ awaitTimer 1000
            ++ (locationsTimeline http key infrastructureType rest).1,
          (locationsTimeline http key infrastructureType rest).2)
      else
        (awaitCall (searchRequest key infrastructureType location)
            ++ (placesTimeline key places).1, false)

/-- The timeline of the loop over the types and whether it ends normally
(server.js lines 90-121). -/
def typesTimeline (http : Http) (key : Option String) (locations : List String) :
    List String → List Step × Bool
  | [] => ([], true)
  | infrastructureType :: rest =>
    if (locationsTimeline http key infrastructureType locations).2 then
      ((locationsTimeline http key infrastructureType locations).1
          ++ (typesTimeline http key locations rest).1,
        (typesTimeline http key locations rest).2)
    else ((locationsTimeline http key infrastructureType locations).1, false)

/-- The timeline of one run of the handler (server.js lines 79-141). -/
def handlerTimeline (http : Http) (key : Option String) : List Step :=
  if keyMissing key then []
  else (typesTimeline http key NIGERIA_LOCATIONS INFRASTRUCTURE_TYPES).1

/-- The effect a moment starts, if it starts one. -/
def Step.started : Step → Option Effect
  | .issued req => some (.get req)
  | .timerSet ms => some (.sleep ms)
  | .settled _ => none
  | .timerFired _ => none

/-- What is pending at a moment of a run: nothing, one call, or the timer. -/
inductive Pending where
  | idle
  | call (req : Request)
  | timer (ms : Nat)
  deriving DecidableEq, Repr

/-- One moment of a run in which operations never overlap: a call is issued or
a timer set only when nothing is pending, and what completes is the operation
that is pending; every other moment is refused (`none`). -/
def Pending.step : Pending → Step → Option Pending
  | .idle, .issued req => some (.call req)
  | .idle, .timerSet ms => some (.timer ms)
  | .call req, .settled req2 => if req = req2 then some .idle else none
  | .timer ms, .timerFired ms2 => if ms = ms2 then some .idle else none
  | _, _ => none

/-- Running a timeline from a pending state: `none` as soon as a moment is
refused, that is, as soon as two operations would be pending at once. -/
def runPending : Pending → List Step → Option Pending
  | p, [] => some p
  | p, s :: rest =>
    match p.step s with
    | some q => runPending q rest
    | none => none

/-- The timeline of one combination of a sweep that completes: the awaited
search, the awaited detail call of each candidate in search-result order, then
the awaited pause. -/
def comboTimeline (http : Http) (key : Option String) (c l : String) : List Step :=
  awaitCall (searchRequest key c l)
    ++ ((candidates http key c l).flatMap fun place =>
          awaitCall (detailsRequest key place.place_id))
    ++ awaitTimer 1000

/-! ## Theorems -/

theorem findIndexFrom_append_of_all_false {α : Type} (p : α → Bool) (pre suf : List α) (i : Nat)
    (h : ∀ y ∈ pre, p y = false) :
    findIndexFrom p (pre ++ suf) i = findIndexFrom p suf (i + pre.length) := by
  induction pre generalizing i with
  | nil => simp
  | cons y ys ih =>
    have hy : p y = false := h y (List.mem_cons_self _ _)
    have hys : ∀ z ∈ ys, p z = false := fun z hz => h z (List.mem_cons_of_mem _ hz)
    have e : i + (ys.length + 1) = i + 1 + ys.length := by omega
    rw [List.cons_append, List.length_cons, e, ← ih (i + 1) hys]
    simp [findIndexFrom, hy]

theorem findIndexFrom_lt_of_mem {α : Type} (p : α → Bool) (pre suf : List α) (i : Nat)
    (h : ∃ y ∈ pre, p y = true) :
    findIndexFrom p (pre ++ suf) i < ((i + pre.length : Nat) : Int) := by
  induction pre generalizing i with
  | nil => simp at h
  | cons y ys ih =>
    rw [List.cons_append, List.length_cons]
    by_cases hy : p y = true
    · have e : findIndexFrom p (y :: (ys ++ suf)) i = (i : Int) := by simp [findIndexFrom, hy]
      rw [e]
      omega
    · have e : findIndexFrom p (y :: (ys ++ suf)) i = findIndexFrom p (ys ++ suf) (i + 1) := by
        simp [findIndexFrom, hy]
      rw [e]
      have hys : ∃ z ∈ ys, p z = true := by
        obtain ⟨z, hz, hpz⟩ := h
        rcases List.mem_cons.1 hz with rfl | hz
        · exact absurd hpz hy
        · exact ⟨z, hz, hpz⟩
      have := ih (i + 1) hys
      omega

/-- At the position after `pre`, the index test of the deduplication holds
exactly when the identifier does not occur in `pre`. -/
theorem findIndex_eq_length_iff (pre rest : List Facility) (x : Facility) :
    ((pre.length : Nat) : Int) = findIndex (fun t => decide (t.id = x.id)) (pre ++ x :: rest)
      ↔ x.id ∉ pre.map (·.id) := by
  unfold findIndex
  constructor
  · intro h hmem
    obtain ⟨y, hy, hid⟩ := List.mem_map.1 hmem
    have := findIndexFrom_lt_of_mem (fun t => decide (t.id = x.id)) pre (x :: rest) 0
      ⟨y, hy, by simpa using hid⟩
    simp only [Nat.zero_add] at this
    omega
  · intro h
    rw [findIndexFrom_append_of_all_false]
    · simp [findIndexFrom]
    · intro y hy
      simp only [decide_eq_false_iff_not]
      intro hid
      exact h (List.mem_map.2 ⟨y, hy, hid⟩)

theorem dedup_enumFrom_eq_keepFirstSeen (suf pre : List Facility) (seen : List (Option String))
    (hseen : ∀ i, i ∈ seen ↔ i ∈ pre.map (·.id)) :
    ((suf.enumFrom pre.length).filter
        (fun (entry : Nat × Facility) =>
          decide ((entry.1 : Int)
            = findIndex (fun t => decide (t.id = entry.2.id)) (pre ++ suf)))).map Prod.snd
      = keepFirstSeen seen suf := by
  induction suf generalizing pre seen with
  | nil => simp [keepFirstSeen]
  | cons x rest ih =>
    have hstep := ih (pre ++ [x])
    simp only [List.length_append, List.length_singleton, List.append_assoc,
      List.singleton_append] at hstep
    simp only [List.enumFrom_cons, List.filter_cons, keepFirstSeen]
    by_cases hx : x.id ∈ seen
    · have hno : ¬ ((pre.length : Nat) : Int)
          = findIndex (fun t => decide (t.id = x.id)) (pre ++ x :: rest) := by
        rw [findIndex_eq_length_iff]
        simpa using (hseen x.id).1 hx
      simp only [hno, decide_False, Bool.false_eq_true, if_false, hx, if_true]
      apply hstep
      intro i
      have := hseen i
      by_cases hi : i = x.id
      · subst hi
        simp [hx]
      · simp [this, hi]
    · have hyes : ((pre.length : Nat) : Int)
          = findIndex (fun t => decide (t.id = x.id)) (pre ++ x :: rest) := by
        rw [findIndex_eq_length_iff]
        intro hmem
        exact hx ((hseen x.id).2 hmem)
      simp only [hyes, decide_True, if_true, hx, if_false, List.map_cons]
      congr 1
      apply hstep
      intro i
      have := hseen i
      by_cases hi : i = x.id
      · subst hi
        simp
      · simp [this, hi]

/-- The `filter`/`findIndex` deduplication keeps the first facility of each
identifier. -/
theorem uniqueInfrastructure_eq_keepFirstById (flat : List Facility) :
    uniqueInfrastructure flat = keepFirstById flat := by
  have := dedup_enumFrom_eq_keepFirstSeen flat [] [] (by simp)
  simpa [uniqueInfrastructure, keepFirstById, List.enum] using this

theorem keepFirstSeen_sublist (seen : List (Option String)) (flat : List Facility) :
    (keepFirstSeen seen flat).Sublist flat := by
  induction flat generalizing seen with
  | nil => simp [keepFirstSeen]
  | cons f rest ih =>
    unfold keepFirstSeen
    split
    · exact List.Sublist.cons _ (ih seen)
    · exact List.Sublist.cons₂ _ (ih _)

theorem mem_ids_keepFirstSeen (seen : List (Option String)) (flat : List Facility)
    (i : Option String) :
    i ∈ (keepFirstSeen seen flat).map (·.id) ↔ i ∈ flat.map (·.id) ∧ i ∉ seen := by
  induction flat generalizing seen with
  | nil => simp [keepFirstSeen]
  | cons f rest ih =>
    unfold keepFirstSeen
    by_cases hf : f.id ∈ seen
    · simp only [hf, if_true, ih, List.map_cons, List.mem_cons]
      constructor
      · rintro ⟨h1, h2⟩
        exact ⟨Or.inr h1, h2⟩
      · rintro ⟨h1 | h1, h2⟩
        · subst h1
          exact absurd hf h2
        · exact ⟨h1, h2⟩
    · simp only [hf, if_false, List.map_cons, List.mem_cons, ih, not_or]
      by_cases hi : i = f.id
      · subst hi
        simp [hf]
      · simp [hi]

theorem nodup_ids_keepFirstSeen (seen : List (Option String)) (flat : List Facility) :
    ((keepFirstSeen seen flat).map (·.id)).Nodup := by
  induction flat generalizing seen with
  | nil => simp [keepFirstSeen]
  | cons f rest ih =>
    unfold keepFirstSeen
    split
    · exact ih seen
    · rw [List.map_cons, List.nodup_cons]
      refine ⟨?_, ih _⟩
      rw [mem_ids_keepFirstSeen]
      simp

theorem filter_id_keepFirstSeen (seen : List (Option String)) (flat : List Facility)
    (x : Option String) :
    (keepFirstSeen seen flat).filter (fun f => decide (f.id = x))
      = if x ∈ seen then [] else (flat.find? (fun f => decide (f.id = x))).toList := by
  induction flat generalizing seen with
  | nil => simp [keepFirstSeen]
  | cons f rest ih =>
    unfold keepFirstSeen
    by_cases hf : f.id ∈ seen
    · simp only [hf, if_true, ih]
      by_cases hx : x ∈ seen
      · simp [hx]
      · have hne : ¬ f.id = x := fun h => hx (h ▸ hf)
        simp [hx, List.find?_cons, hne]
    · simp only [hf, if_false, List.filter_cons, ih]
      by_cases hfx : f.id = x
      · subst hfx
        simp [hf, List.find?_cons]
      · by_cases hx : x ∈ seen
        · simp [hx, hfx]
        · have hne : ¬ x = f.id := fun h => hfx h.symm
          simp [hx, hfx, hne, List.find?_cons]

theorem keepFirstSeen_congr (seen seen2 : List (Option String)) (flat : List Facility)
    (h : ∀ g ∈ flat, g.id ∈ seen ↔ g.id ∈ seen2) :
    keepFirstSeen seen flat = keepFirstSeen seen2 flat := by
  induction flat generalizing seen seen2 with
  | nil => simp [keepFirstSeen]
  | cons f rest ih =>
    have hf := h f (List.mem_cons_self _ _)
    have hrest : ∀ g ∈ rest, g.id ∈ seen ↔ g.id ∈ seen2 :=
      fun g hg => h g (List.mem_cons_of_mem _ hg)
    unfold keepFirstSeen
    by_cases hs : f.id ∈ seen
    · simp only [hs, hf.1 hs, if_true]
      exact ih seen seen2 hrest
    · have hs2 : f.id ∉ seen2 := fun h2 => hs (hf.2 h2)
      simp only [hs, hs2, if_false]
      congr 1
      apply ih
      intro g hg
      simp only [List.mem_cons, hrest g hg]

theorem keepFirstSeen_filter (q : Option String → Bool) (seen : List (Option String))
    (flat : List Facility) :
    (keepFirstSeen seen flat).filter (fun f => q f.id)
      = keepFirstSeen seen (flat.filter (fun f => q f.id)) := by
  induction flat generalizing seen with
  | nil => simp [keepFirstSeen]
  | cons f rest ih =>
    by_cases hq : q f.id = true
    · by_cases hf : f.id ∈ seen
      · simp [keepFirstSeen, List.filter_cons, hq, hf, ih]
      · simp [keepFirstSeen, List.filter_cons, hq, hf, ih]
    · by_cases hf : f.id ∈ seen
      · simp [keepFirstSeen, List.filter_cons, hq, hf, ih]
      · simp only [keepFirstSeen, hf, if_false, List.filter_cons, hq, Bool.false_eq_true, ih]
        apply keepFirstSeen_congr
        intro g hg
        have hgq : q g.id = true := (List.mem_filter.1 hg).2
        have hne : ¬ g.id = f.id := fun e => hq (e ▸ hgq)
        simp [hne]

theorem placesLoop_isCompleted (http : Http) (key : Option String) (c l : String)
    (items : List (Option Place)) (s : Sweep) :
    (placesLoop http key c l items s).isCompleted = items.all Option.isSome := by
  induction items generalizing s with
  | nil => rfl
  | cons x rest ih =>
    cases x with
    | none => simp [placesLoop, Outcome.isCompleted]
    | some place =>
      simp only [placesLoop, List.all_cons, Option.isSome_some, Bool.true_and]
      split <;> exact ih _

theorem placesLoop_flat (http : Http) (key : Option String) (c l : String)
    (items : List (Option Place)) (s : Sweep)
    (h : items.all Option.isSome = true) :
    (placesLoop http key c l items s).flat
      = s.allInfrastructure ++ (items.filterMap id).filterMap fun place =>
          (getPlaceDetails http key place.place_id).map (mkFacility c l place) := by
  induction items generalizing s with
  | nil => simp [placesLoop, Outcome.flat]
  | cons x rest ih =>
    cases x with
    | none => simp at h
    | some place =>
      have hrest : rest.all Option.isSome = true := by simpa using h
      simp only [placesLoop]
      split
      · next details hd =>
        rw [ih _ hrest]
        simp [hd]
      · next hd =>
        rw [ih _ hrest]
        simp [hd]

theorem locationsLoop_isCompleted (http : Http) (key : Option String) (c : String)
    (locations : List String) (s : Sweep) :
    (locationsLoop http key c locations s).isCompleted
      = locations.all fun l => resultsOk (searchPlaces http key c l) := by
  induction locations generalizing s with
  | nil => rfl
  | cons l rest ih =>
    simp only [locationsLoop, List.all_cons]
    cases hsp : searchPlaces http key c l with
    | other => simp [resultsOk, Outcome.isCompleted]
    | array items =>
      have hr : resultsOk (Results.array items) = items.all Option.isSome := rfl
      rw [hr]
      have hp := placesLoop_isCompleted http key c l items
        { allInfrastructure := s.allInfrastructure,
          trace := s.trace ++ [Effect.get (searchRequest key c l)] }
      cases hpl : placesLoop http key c l items
          { allInfrastructure := s.allInfrastructure,
            trace := s.trace ++ [Effect.get (searchRequest key c l)] } with
      | threw m t =>
        rw [hpl] at hp
        simp only [Outcome.isCompleted] at hp
        simp [← hp, Outcome.isCompleted, hpl]
      | completed s1 =>
        rw [hpl] at hp
        simp only [Outcome.isCompleted] at hp
        simp [← hp, ih, hpl]

theorem locationsLoop_flat (http : Http) (key : Option String) (c : String)
    (locations : List String) (s : Sweep)
    (h : (locations.all fun l => resultsOk (searchPlaces http key c l)) = true) :
    (locationsLoop http key c locations s).flat
      = s.allInfrastructure ++ locations.flatMap fun l => comboFacilities http key c l := by
  induction locations generalizing s with
  | nil => simp [locationsLoop, Outcome.flat]
  | cons l rest ih =>
    rw [List.all_cons, Bool.and_eq_true] at h
    obtain ⟨hl, hrest⟩ := h
    simp only [locationsLoop]
    cases hsp : searchPlaces http key c l with
    | other => simp [hsp, resultsOk] at hl
    | array items =>
      have hitems : items.all Option.isSome = true := by simpa [hsp, resultsOk] using hl
      have hc := placesLoop_isCompleted http key c l items
        { allInfrastructure := s.allInfrastructure,
          trace := s.trace ++ [Effect.get (searchRequest key c l)] }
      have hf := placesLoop_flat http key c l items
        { allInfrastructure := s.allInfrastructure,
          trace := s.trace ++ [Effect.get (searchRequest key c l)] } hitems
      cases hpl : placesLoop http key c l items
          { allInfrastructure := s.allInfrastructure,
            trace := s.trace ++ [Effect.get (searchRequest key c l)] } with
      | threw m t =>
        rw [hpl, hitems] at hc
        simp [Outcome.isCompleted] at hc
      | completed s1 =>
        rw [hpl] at hf
        simp only [Outcome.flat] at hf
        simp only [hpl]
        rw [ih _ hrest]
        simp [hf, comboFacilities, candidates, hsp]

theorem typesLoop_isCompleted (http : Http) (key : Option String)
    (locations types : List String) (s : Sweep) :
    (typesLoop http key locations types s).isCompleted = sweepOk http key locations types := by
  induction types generalizing s with
  | nil => rfl
  | cons c rest ih =>
    have hl := locationsLoop_isCompleted http key c locations s
    simp only [typesLoop, sweepOk, List.all_cons]
    cases hll : locationsLoop http key c locations s with
    | threw m t =>
      rw [hll] at hl
      simp only [Outcome.isCompleted] at hl
      simp [← hl, Outcome.isCompleted]
    | completed s1 =>
      rw [hll] at hl
      simp only [Outcome.isCompleted] at hl
      simp only [← hl, Bool.true_and]
      exact ih s1

theorem typesLoop_flat (http : Http) (key : Option String)
    (locations types : List String) (s : Sweep)
    (h : sweepOk http key locations types = true) :
    (typesLoop http key locations types s).flat
      = s.allInfrastructure ++ sweepConcatOver http key locations types := by
  induction types generalizing s with
  | nil => simp [typesLoop, Outcome.flat, sweepConcatOver]
  | cons c rest ih =>
    simp only [sweepOk, List.all_cons, Bool.and_eq_true] at h
    obtain ⟨hc, hrest⟩ := h
    have hl := locationsLoop_isCompleted http key c locations s
    have hf := locationsLoop_flat http key c locations s hc
    simp only [typesLoop]
    cases hll : locationsLoop http key c locations s with
    | threw m t =>
      rw [hll, hc] at hl
      simp [Outcome.isCompleted] at hl
    | completed s1 =>
      rw [hll] at hf
      simp only [Outcome.flat] at hf
      simp only [hll]
      rw [ih s1 hrest, hf]
      simp [sweepConcatOver]

/-- With a key and searches that can all be iterated, the handler answers with
the deduplicated concatenation of the sweep. -/
theorem handler_response_of_wellFormed (http : Http) (key : Option String)
    (hkey : keyMissing key = false) (hwf : WellFormed http key) :
    (handler http key).1 = successResponse (uniqueInfrastructure (sweepConcat http key)) := by
  have hc := typesLoop_isCompleted http key NIGERIA_LOCATIONS INFRASTRUCTURE_TYPES
    { allInfrastructure := [], trace := [] }
  have hf := typesLoop_flat http key NIGERIA_LOCATIONS INFRASTRUCTURE_TYPES
    { allInfrastructure := [], trace := [] } hwf
  unfold handler
  rw [hkey]
  simp only [Bool.false_eq_true, if_false]
  cases hrun : typesLoop http key NIGERIA_LOCATIONS INFRASTRUCTURE_TYPES
      { allInfrastructure := [], trace := [] } with
  | threw m t =>
    rw [hrun] at hc
    rw [show sweepOk http key NIGERIA_LOCATIONS INFRASTRUCTURE_TYPES = true from hwf] at hc
    simp [Outcome.isCompleted] at hc
  | completed s =>
    rw [hrun] at hf
    simp only [Outcome.flat, List.nil_append] at hf
    simp only [hf, sweepConcat]

/-- The handler answers with a success body only after a sweep in which every
search could be iterated, and with a key. -/
theorem wellFormed_of_handler_success (http : Http) (key : Option String) (data : List Facility)
    (h : (handler http key).1 = successResponse data) :
    keyMissing key = false ∧ WellFormed http key := by
  have hc := typesLoop_isCompleted http key NIGERIA_LOCATIONS INFRASTRUCTURE_TYPES
    { allInfrastructure := [], trace := [] }
  unfold handler at h
  cases hk : keyMissing key with
  | true =>
    rw [hk] at h
    simp [configErrorResponse, successResponse] at h
  | false =>
    refine ⟨rfl, ?_⟩
    rw [hk] at h
    simp only [Bool.false_eq_true, if_false] at h
    cases hrun : typesLoop http key NIGERIA_LOCATIONS INFRASTRUCTURE_TYPES
        { allInfrastructure := [], trace := [] } with
    | threw m t =>
      rw [hrun] at h
      simp [failureResponse, successResponse] at h
    | completed s =>
      rw [hrun] at hc
      simp only [Outcome.isCompleted] at hc
      exact hc.symm

theorem successResponse_injective (a b : List Facility)
    (h : successResponse a = successResponse b) : a = b := by
  simp only [successResponse, Response.mk.injEq, true_and] at h
  simp only [List.cons.injEq, Prod.mk.injEq, Json.facilities.injEq, Json.num.injEq, true_and,
    and_true] at h
  exact h.2

/-- The data of a success response of the handler is the deduplicated
concatenation of the sweep. -/
theorem handler_data_eq (http : Http) (key : Option String) (data : List Facility)
    (h : (handler http key).1 = successResponse data) :
    data = keepFirstById (sweepConcat http key) := by
  obtain ⟨hkey, hwf⟩ := wellFormed_of_handler_success http key data h
  rw [handler_response_of_wellFormed http key hkey hwf] at h
  rw [← uniqueInfrastructure_eq_keepFirstById]
  exact (successResponse_injective _ _ h).symm

/-- C1: whenever the handler succeeds, no two facilities of the returned data
list have the same id. -/
theorem handler_data_ids_distinct (http : Http) (key : Option String) (data : List Facility)
    (h : (handler http key).1 = successResponse data) :
    data.Pairwise (fun a b => a.id ≠ b.id) := by
  rw [handler_data_eq http key data h]
  have := nodup_ids_keepFirstSeen [] (sweepConcat http key)
  rw [List.Nodup, List.pairwise_map] at this
  exact this

theorem handler_data_ids_distinct_witness :
    (handler demoHttp demoKey).1
        = successResponse [mkFacility "gas processing plant" "Lagos, Nigeria" ⟨some "X"⟩ demoDetails]
      ∧ [mkFacility "gas processing plant" "Lagos, Nigeria" ⟨some "X"⟩ demoDetails].Pairwise
          (fun a b => a.id ≠ b.id) :=
  ⟨by decide, handler_data_ids_distinct demoHttp demoKey _ (by decide)⟩

theorem flatMap_congr_mem {α β : Type} (xs : List α) (f g : α → List β)
    (h : ∀ a ∈ xs, f a = g a) : xs.flatMap f = xs.flatMap g := by
  induction xs with
  | nil => rfl
  | cons a rest ih =>
    rw [List.flatMap_cons, List.flatMap_cons, h a (List.mem_cons_self _ _),
      ih fun b hb => h b (List.mem_cons_of_mem _ hb)]

theorem sweepConcatOver_eq_flatMap (http : Http) (key : Option String)
    (locations types : List String) :
    sweepConcatOver http key locations types
      = (types.flatMap fun c => locations.map fun l => (c, l)).flatMap
          fun cl => comboFacilities http key cl.1 cl.2 := by
  unfold sweepConcatOver
  induction types with
  | nil => simp
  | cons c rest ih =>
    simp only [List.flatMap_cons, List.flatMap_append, ih, List.flatMap_map]

theorem sweepConcat_eq_flatMap_sweepOrder (http : Http) (key : Option String) :
    sweepConcat http key
      = sweepOrder.flatMap fun cl => comboFacilities http key cl.1 cl.2 :=
  sweepConcatOver_eq_flatMap http key NIGERIA_LOCATIONS INFRASTRUCTURE_TYPES

theorem mem_comboFacilities (http : Http) (key : Option String) (c l : String) (g : Facility) :
    g ∈ comboFacilities http key c l
      ↔ ∃ p ∈ candidates http key c l, ∃ d,
          getPlaceDetails http key p.place_id = some d ∧ g = mkFacility c l p d := by
  unfold comboFacilities
  rw [List.mem_filterMap]
  constructor
  · rintro ⟨p, hp, hg⟩
    cases hd : getPlaceDetails http key p.place_id with
    | none => simp [hd] at hg
    | some d =>
      rw [hd] at hg
      simp only [Option.map_some', Option.some.injEq] at hg
      exact ⟨p, hp, d, hd, hg.symm⟩
  · rintro ⟨p, hp, d, hd, rfl⟩
    exact ⟨p, hp, by simp [hd]⟩

theorem find_id_filterMap_places (details : Option String → Option Details) (c l : String)
    (places : List Place) (x : Option String) :
    (places.filterMap fun p => (details p.place_id).map (mkFacility c l p)).find?
        (fun g => decide (g.id = x))
      = if x ∈ places.map (·.place_id) then (details x).map (mkFacility c l ⟨x⟩) else none := by
  induction places with
  | nil => simp
  | cons p rest ih =>
    by_cases hpx : p.place_id = x
    · have hp : p = ⟨x⟩ := by
        cases p
        simpa using hpx
      subst hp
      cases hd : details x with
      | none =>
        simp only [List.filterMap_cons, hd, Option.map_none', ih]
        simp
      | some d =>
        simp [List.filterMap_cons, hd, List.find?_cons, mkFacility]
    · have hxp : ¬ x = p.place_id := fun e => hpx e.symm
      cases hd : details p.place_id with
      | none =>
        simp only [List.filterMap_cons, hd, Option.map_none', ih]
        simp [hxp]
      | some d =>
        simp only [List.filterMap_cons, hd, Option.map_some', List.find?_cons, ih]
        simp [mkFacility, hpx, hxp]

/-- C2: for every flat list and every id occurring in it, the deduplicated list
holds exactly one facility with that id, the first one in append order; hence in
the handler, when the combination `(c1, l1)` is the first of the sweep whose search
returns the id (with details present), the single surviving facility with that id
has type `c1` and location `l1` (and the name and address of the details of the
id), whichever later combinations return the id again. -/
theorem dedup_keeps_first_occurrence :
    (∀ (flat : List Facility) (x : Option String), x ∈ flat.map (·.id) →
        ∃ f, flat.find? (fun g => decide (g.id = x)) = some f
          ∧ (uniqueInfrastructure flat).filter (fun g => decide (g.id = x)) = [f])
    ∧ (∀ (http : Http) (key : Option String) (pre post : List (String × String))
        (c1 l1 : String) (x : Option String) (d : Details),
        keyMissing key = false → WellFormed http key →
        sweepOrder = pre ++ (c1, l1) :: post →
        (∀ cl ∈ pre, x ∉ (candidates http key cl.1 cl.2).map (·.place_id)) →
        x ∈ (candidates http key c1 l1).map (·.place_id) →
        getPlaceDetails http key x = some d →
        ∃ data f, (handler http key).1 = successResponse data
          ∧ data.filter (fun g => decide (g.id = x)) = [f]
          ∧ f.id = x ∧ f.type = c1 ∧ f.location = l1
          ∧ f.name = d.name ∧ f.address = d.formatted_address
          ∧ f = mkFacility c1 l1 ⟨x⟩ d) := by
  constructor
  · intro flat x hx
    obtain ⟨g, hg, hgx⟩ := List.mem_map.1 hx
    have hsome : (flat.find? (fun g => decide (g.id = x))).isSome := by
      rw [List.find?_isSome]
      exact ⟨g, hg, by simpa using hgx⟩
    obtain ⟨f, hf⟩ := Option.isSome_iff_exists.1 hsome
    refine ⟨f, hf, ?_⟩
    rw [uniqueInfrastructure_eq_keepFirstById, keepFirstById, filter_id_keepFirstSeen, hf]
    simp
  · intro http key pre post c1 l1 x d hkey hwf hsplit hpre hin hd
    refine ⟨_, mkFacility c1 l1 ⟨x⟩ d, handler_response_of_wellFormed http key hkey hwf, ?_,
      rfl, rfl, rfl, rfl, rfl, rfl⟩
    rw [uniqueInfrastructure_eq_keepFirstById, keepFirstById, filter_id_keepFirstSeen,
      sweepConcat_eq_flatMap_sweepOrder, hsplit]
    simp only [List.not_mem_nil, if_false, List.flatMap_append, List.flatMap_cons,
      List.find?_append]
    have hnone : (pre.flatMap fun cl => comboFacilities http key cl.1 cl.2).find?
        (fun g => decide (g.id = x)) = none := by
      rw [List.find?_eq_none]
      intro g hg
      obtain ⟨cl, hcl, hgcl⟩ := List.mem_flatMap.1 hg
      obtain ⟨p, hp, d2, -, rfl⟩ := (mem_comboFacilities http key cl.1 cl.2 g).1 hgcl
      have := hpre cl hcl
      simp only [decide_eq_true_eq]
      intro hid
      apply this
      exact List.mem_map.2 ⟨p, hp, hid⟩
    have hfound : (comboFacilities http key c1 l1).find? (fun g => decide (g.id = x))
        = some (mkFacility c1 l1 ⟨x⟩ d) := by
      unfold comboFacilities
      rw [find_id_filterMap_places (getPlaceDetails http key) c1 l1 _ x]
      simp [hin, hd]
    rw [hnone, hfound]
    simp

theorem dedup_keeps_first_occurrence_witness :
    (∃ f, [mkFacility "a" "b" ⟨some "X"⟩ demoDetails,
            mkFacility "c" "d" ⟨some "X"⟩ demoDetails].find? (fun g => decide (g.id = some "X"))
          = some f
        ∧ (uniqueInfrastructure [mkFacility "a" "b" ⟨some "X"⟩ demoDetails,
            mkFacility "c" "d" ⟨some "X"⟩ demoDetails]).filter
              (fun g => decide (g.id = some "X")) = [f])
    ∧ some "X" ∈ (candidates demoHttp demoKey "gas processing plant" "Lagos, Nigeria").map
        (·.place_id)
    ∧ some "X" ∈ (candidates demoHttp demoKey "pipeline" "Warri, Nigeria").map (·.place_id)
    ∧ (∃ data f, (handler demoHttp demoKey).1 = successResponse data
        ∧ data.filter (fun g => decide (g.id = some "X")) = [f]
        ∧ f.id = some "X" ∧ f.type = "gas processing plant" ∧ f.location = "Lagos, Nigeria"
        ∧ f.name = demoDetails.name ∧ f.address = demoDetails.formatted_address
        ∧ f = mkFacility "gas processing plant" "Lagos, Nigeria" ⟨some "X"⟩ demoDetails) :=
  ⟨dedup_keeps_first_occurrence.1 _ (some "X") (by decide),
   by decide, by decide,
   dedup_keeps_first_occurrence.2 demoHttp demoKey [] sweepOrder.tail
     "gas processing plant" "Lagos, Nigeria" (some "X") demoDetails
     (by decide) (by decide) (by decide) (by simp) (by decide) (by decide)⟩

theorem mem_sweepConcat (http : Http) (key : Option String) (g : Facility) :
    g ∈ sweepConcat http key
      ↔ ∃ c ∈ INFRASTRUCTURE_TYPES, ∃ l ∈ NIGERIA_LOCATIONS, ∃ p ∈ candidates http key c l,
          ∃ d, getPlaceDetails http key p.place_id = some d ∧ g = mkFacility c l p d := by
  unfold sweepConcat sweepConcatOver
  simp only [List.mem_flatMap, mem_comboFacilities]

/-- C3: for a fixed world (with a key, every search yielding a list of
candidates), the data list of the handler is the concatenation, over
`INFRASTRUCTURE_TYPES` in order (outer) and `NIGERIA_LOCATIONS` in order
(inner), of the facilities built from the candidates of each combination in
search-result order (skipping absent details), with only the first occurrence
of each id kept; it is an order-preserving sublist of that concatenation, and
it is determined by the candidate lists and the detail results alone. -/
theorem handler_data_is_first_occurrence_sweep (http : Http) (key : Option String)
    (hkey : keyMissing key = false) (hwf : WellFormed http key) :
    (handler http key).1
        = successResponse (keepFirstById
            (INFRASTRUCTURE_TYPES.flatMap fun c =>
              NIGERIA_LOCATIONS.flatMap fun l =>
                (candidates http key c l).filterMap fun place =>
                  (getPlaceDetails http key place.place_id).map (mkFacility c l place)))
      ∧ (keepFirstById (sweepConcat http key)).Sublist (sweepConcat http key)
      ∧ (∀ http2 : Http, WellFormed http2 key →
          (∀ c ∈ INFRASTRUCTURE_TYPES, ∀ l ∈ NIGERIA_LOCATIONS,
            candidates http2 key c l = candidates http key c l) →
          (∀ x, getPlaceDetails http2 key x = getPlaceDetails http key x) →
          (handler http2 key).1 = (handler http key).1) := by
  refine ⟨?_, keepFirstSeen_sublist [] _, ?_⟩
  · rw [handler_response_of_wellFormed http key hkey hwf, uniqueInfrastructure_eq_keepFirstById]
    rfl
  · intro http2 hwf2 hcand hdet
    rw [handler_response_of_wellFormed http key hkey hwf,
      handler_response_of_wellFormed http2 key hkey hwf2]
    have hflat : sweepConcat http2 key = sweepConcat http key := by
      unfold sweepConcat sweepConcatOver
      apply flatMap_congr_mem
      intro c hc
      apply flatMap_congr_mem
      intro l hl
      simp only [comboFacilities, hcand c hc l hl, hdet]
    rw [hflat]

theorem handler_data_is_first_occurrence_sweep_witness :
    (handler demoHttp demoKey).1
        = successResponse (keepFirstById
            (INFRASTRUCTURE_TYPES.flatMap fun c =>
              NIGERIA_LOCATIONS.flatMap fun l =>
                (candidates demoHttp demoKey c l).filterMap fun place =>
                  (getPlaceDetails demoHttp demoKey place.place_id).map (mkFacility c l place)))
      ∧ (keepFirstById (sweepConcat demoHttp demoKey)).Sublist (sweepConcat demoHttp demoKey)
      ∧ (∀ http2 : Http, WellFormed http2 demoKey →
          (∀ c ∈ INFRASTRUCTURE_TYPES, ∀ l ∈ NIGERIA_LOCATIONS,
            candidates http2 demoKey c l = candidates demoHttp demoKey c l) →
          (∀ x, getPlaceDetails http2 demoKey x = getPlaceDetails demoHttp demoKey x) →
          (handler http2 demoKey).1 = (handler demoHttp demoKey).1) :=
  handler_data_is_first_occurrence_sweep demoHttp demoKey (by decide) (by decide)

/-- Every response of the handler is the configuration error, the failure
response of the `catch` block, or a success response. -/
theorem handler_response_cases (http : Http) (key : Option String) :
    (handler http key).1 = configErrorResponse
      ∨ (∃ message, (handler http key).1 = failureResponse message)
      ∨ ∃ data, (handler http key).1 = successResponse data := by
  unfold handler
  split
  · exact Or.inl rfl
  · split
    · exact Or.inr (Or.inl ⟨_, rfl⟩)
    · exact Or.inr (Or.inr ⟨_, rfl⟩)

/-- C5: in every successful run of the handler (status 200) the response body
is `{success: true, count, data}` with `count` equal to the length of `data`. -/
theorem handler_count_eq_length (http : Http) (key : Option String)
    (h : (handler http key).1.status = 200) :
    ∃ data : List Facility,
      (handler http key).1.body
        = [("success", .bool true), ("count", .num data.length), ("data", .facilities data)] := by
  rcases handler_response_cases http key with hc | ⟨m, hf⟩ | ⟨data, hs⟩
  · rw [hc] at h
    simp [configErrorResponse] at h
  · rw [hf] at h
    simp [failureResponse] at h
  · exact ⟨data, by rw [hs]; rfl⟩

theorem handler_count_eq_length_witness :
    (handler demoHttp demoKey).1.status = 200
      ∧ ∃ data : List Facility,
          (handler demoHttp demoKey).1.body
            = [("success", .bool true), ("count", .num data.length),
               ("data", .facilities data)] :=
  ⟨by decide, handler_count_eq_length demoHttp demoKey (by decide)⟩

theorem placesLoop_effects (http : Http) (key : Option String) (c l : String)
    (items : List (Option Place)) (s : Sweep)
    (h : items.all Option.isSome = true) :
    (placesLoop http key c l items s).effects
      = s.trace ++ (items.filterMap id).map fun place =>
          Effect.get (detailsRequest key place.place_id) := by
  induction items generalizing s with
  | nil => simp [placesLoop, Outcome.effects]
  | cons x rest ih =>
    cases x with
    | none => simp at h
    | some place =>
      have hrest : rest.all Option.isSome = true := by simpa using h
      simp only [placesLoop]
      split
      · rw [ih _ hrest]
        simp
      · rw [ih _ hrest]
        simp

theorem locationsLoop_effects (http : Http) (key : Option String) (c : String)
    (locations : List String) (s : Sweep)
    (h : (locations.all fun l => resultsOk (searchPlaces http key c l)) = true) :
    (locationsLoop http key c locations s).effects
      = s.trace ++ locations.flatMap fun l => comboTrace http key c l := by
  induction locations generalizing s with
  | nil => simp [locationsLoop, Outcome.effects]
  | cons l rest ih =>
    rw [List.all_cons, Bool.and_eq_true] at h
    obtain ⟨hl, hrest⟩ := h
    simp only [locationsLoop]
    cases hsp : searchPlaces http key c l with
    | other => simp [hsp, resultsOk] at hl
    | array items =>
      have hitems : items.all Option.isSome = true := by simpa [hsp, resultsOk] using hl
      have hc := placesLoop_isCompleted http key c l items
        { allInfrastructure := s.allInfrastructure,
          trace := s.trace ++ [Effect.get (searchRequest key c l)] }
      have hf := placesLoop_effects http key c l items
        { allInfrastructure := s.allInfrastructure,
          trace := s.trace ++ [Effect.get (searchRequest key c l)] } hitems
      cases hpl : placesLoop http key c l items
          { allInfrastructure := s.allInfrastructure,
            trace := s.trace ++ [Effect.get (searchRequest key c l)] } with
      | threw m t =>
        rw [hpl, hitems] at hc
        simp [Outcome.isCompleted] at hc
      | completed s1 =>
        rw [hpl] at hf
        simp only [Outcome.effects] at hf
        simp only [hpl]
        rw [ih _ hrest]
        simp [hf, comboTrace, candidates, hsp]

theorem typesLoop_effects (http : Http) (key : Option String)
    (locations types : List String) (s : Sweep)
    (h : sweepOk http key locations types = true) :
    (typesLoop http key locations types s).effects
      = s.trace ++ sweepTraceOver http key locations types := by
  induction types generalizing s with
  | nil => simp [typesLoop, Outcome.effects, sweepTraceOver]
  | cons c rest ih =>
    simp only [sweepOk, List.all_cons, Bool.and_eq_true] at h
    obtain ⟨hc, hrest⟩ := h
    have hl := locationsLoop_isCompleted http key c locations s
    have hf := locationsLoop_effects http key c locations s hc
    simp only [typesLoop]
    cases hll : locationsLoop http key c locations s with
    | threw m t =>
      rw [hll, hc] at hl
      simp [Outcome.isCompleted] at hl
    | completed s1 =>
      rw [hll] at hf
      simp only [Outcome.effects] at hf
      simp only [hll]
      rw [ih s1 hrest, hf]
      simp [sweepTraceOver]

/-- With a key and searches that can all be iterated, the effects of the
handler are those of the complete sweep. -/
theorem handler_effects_of_wellFormed (http : Http) (key : Option String)
    (hkey : keyMissing key = false) (hwf : WellFormed http key) :
    (handler http key).2 = sweepTraceOver http key NIGERIA_LOCATIONS INFRASTRUCTURE_TYPES := by
  have hc := typesLoop_isCompleted http key NIGERIA_LOCATIONS INFRASTRUCTURE_TYPES
    { allInfrastructure := [], trace := [] }
  have hf := typesLoop_effects http key NIGERIA_LOCATIONS INFRASTRUCTURE_TYPES
    { allInfrastructure := [], trace := [] } hwf
  unfold handler
  rw [hkey]
  simp only [Bool.false_eq_true, if_false]
  cases hrun : typesLoop http key NIGERIA_LOCATIONS INFRASTRUCTURE_TYPES
      { allInfrastructure := [], trace := [] } with
  | threw m t =>
    rw [hrun] at hc
    rw [show sweepOk http key NIGERIA_LOCATIONS INFRASTRUCTURE_TYPES = true from hwf] at hc
    simp [Outcome.isCompleted] at hc
  | completed s =>
    rw [hrun] at hf
    simp only [Outcome.effects, List.nil_append] at hf
    simp only [hf]

theorem wellFormed_of_all_empty (http : Http) (key : Option String)
    (hempty : ∀ c ∈ INFRASTRUCTURE_TYPES, ∀ l ∈ NIGERIA_LOCATIONS,
      searchPlaces http key c l = .array []) :
    WellFormed http key := by
  unfold WellFormed sweepOk
  rw [List.all_eq_true]
  intro c hc
  rw [List.all_eq_true]
  intro l hl
  rw [hempty c hc l hl]
  rfl

/-- C6: with a key, if the search of every combination returns zero
candidates, the handler succeeds with `success = true`, `count = 0` and the
empty data list; its effects are one search and one pause per combination, so
no request goes to the Place Details service. -/
theorem handler_empty_sweep (http : Http) (key : Option String)
    (hkey : keyMissing key = false)
    (hempty : ∀ c ∈ INFRASTRUCTURE_TYPES, ∀ l ∈ NIGERIA_LOCATIONS,
      searchPlaces http key c l = .array []) :
    (handler http key).1
        = { status := 200,
            body := [("success", .bool true), ("count", .num 0), ("data", .facilities [])] }
      ∧ (handler http key).2
        = (INFRASTRUCTURE_TYPES.flatMap fun c => NIGERIA_LOCATIONS.flatMap fun l =>
            [Effect.get (searchRequest key c l), Effect.sleep 1000])
      ∧ ∀ placeId, Effect.get (detailsRequest key placeId) ∉ (handler http key).2 := by
  have hwf := wellFormed_of_all_empty http key hempty
  have htrace : (handler http key).2
      = (INFRASTRUCTURE_TYPES.flatMap fun c => NIGERIA_LOCATIONS.flatMap fun l =>
          [Effect.get (searchRequest key c l), Effect.sleep 1000]) := by
    rw [handler_effects_of_wellFormed http key hkey hwf, sweepTraceOver]
    apply flatMap_congr_mem
    intro c hc
    apply flatMap_congr_mem
    intro l hl
    simp [comboTrace, candidates, hempty c hc l hl]
  have hflat : sweepConcat http key = [] := by
    unfold sweepConcat sweepConcatOver
    rw [List.flatMap_eq_nil_iff]
    intro c hc
    rw [List.flatMap_eq_nil_iff]
    intro l hl
    simp [comboFacilities, candidates, hempty c hc l hl]
  refine ⟨?_, htrace, ?_⟩
  · rw [handler_response_of_wellFormed http key hkey hwf, hflat]
    rfl
  · intro placeId hmem
    rw [htrace] at hmem
    simp only [List.mem_flatMap, List.mem_cons, List.mem_singleton, Effect.get.injEq,
      List.not_mem_nil, or_false] at hmem
    obtain ⟨c, -, l, -, h | h⟩ := hmem
    · have hurl := congrArg Request.url h
      simp [detailsRequest, searchRequest] at hurl
    · cases h

theorem handler_empty_sweep_witness :
    (handler emptyHttp demoKey).1
        = { status := 200,
            body := [("success", .bool true), ("count", .num 0), ("data", .facilities [])] }
      ∧ (handler emptyHttp demoKey).2
        = (INFRASTRUCTURE_TYPES.flatMap fun c => NIGERIA_LOCATIONS.flatMap fun l =>
            [Effect.get (searchRequest demoKey c l), Effect.sleep 1000])
      ∧ ∀ placeId, Effect.get (detailsRequest demoKey placeId) ∉ (handler emptyHttp demoKey).2 :=
  handler_empty_sweep emptyHttp demoKey (by decide) (by decide)

/-- C7: when `GOOGLE_MAPS_API_KEY` is undefined or empty, the handler answers
with status 500 and the configuration error message, and causes no effect at
all: no search request and no detail request, whatever the world would answer. -/
theorem handler_missing_key (http : Http) (key : Option String)
    (hkey : key = none ∨ key = some "") :
    handler http key
      = ({ status := 500,
           body := [("error", .str ("Google Maps API key not configured. " ++
             "Please set GOOGLE_MAPS_API_KEY in your environment variables."))] }, []) := by
  rcases hkey with rfl | rfl <;> rfl

theorem handler_missing_key_witness :
    handler demoHttp (some "")
      = ({ status := 500,
           body := [("error", .str ("Google Maps API key not configured. " ++
             "Please set GOOGLE_MAPS_API_KEY in your environment variables."))] }, []) :=
  handler_missing_key demoHttp (some "") (Or.inr rfl)

theorem placesLoop_congr (http http2 : Http) (key : Option String) (c l : String)
    (hd : ∀ x, getPlaceDetails http2 key x = getPlaceDetails http key x)
    (items : List (Option Place)) (s : Sweep) :
    placesLoop http2 key c l items s = placesLoop http key c l items s := by
  induction items generalizing s with
  | nil => rfl
  | cons x rest ih =>
    cases x with
    | none => rfl
    | some place => simp only [placesLoop, hd, ih]

theorem locationsLoop_congr (http http2 : Http) (key : Option String) (c : String)
    (hs : ∀ c l, searchPlaces http2 key c l = searchPlaces http key c l)
    (hd : ∀ x, getPlaceDetails http2 key x = getPlaceDetails http key x)
    (locations : List String) (s : Sweep) :
    locationsLoop http2 key c locations s = locationsLoop http key c locations s := by
  induction locations generalizing s with
  | nil => rfl
  | cons l rest ih =>
    simp only [locationsLoop, hs, placesLoop_congr http http2 key c l hd, ih]

theorem typesLoop_congr (http http2 : Http) (key : Option String)
    (hs : ∀ c l, searchPlaces http2 key c l = searchPlaces http key c l)
    (hd : ∀ x, getPlaceDetails http2 key x = getPlaceDetails http key x)
    (locations types : List String) (s : Sweep) :
    typesLoop http2 key locations types s = typesLoop http key locations types s := by
  induction types generalizing s with
  | nil => rfl
  | cons c rest ih =>
    simp only [typesLoop, locationsLoop_congr http http2 key c hs hd, ih]

/-- The handler depends on the world only through what `searchPlaces` and
`getPlaceDetails` return. -/
theorem handler_congr (http http2 : Http) (key : Option String)
    (hs : ∀ c l, searchPlaces http2 key c l = searchPlaces http key c l)
    (hd : ∀ x, getPlaceDetails http2 key x = getPlaceDetails http key x) :
    handler http2 key = handler http key := by
  simp only [handler, typesLoop_congr http http2 key hs hd]

theorem detailsRequest_ne_searchRequest (key key2 : Option String) (x : Option String)
    (c l : String) : detailsRequest key x ≠ searchRequest key2 c l := by
  intro h
  have hurl := congrArg Request.url h
  simp [detailsRequest, searchRequest] at hurl

theorem getPlaceDetails_of_agree (http http2 : Http) (key : Option String) (c0 l0 : String)
    (hother : ∀ r, r ≠ searchRequest key c0 l0 → http2 r = http r) (x : Option String) :
    getPlaceDetails http2 key x = getPlaceDetails http key x := by
  unfold getPlaceDetails
  rw [hother _ (detailsRequest_ne_searchRequest key key x c0 l0)]

theorem searchPlaces_of_rejected (http : Http) (key : Option String) (c l : String)
    (message : String) (h : http (searchRequest key c l) = .rejected message) :
    searchPlaces http key c l = .array [] := by
  unfold searchPlaces
  rw [h]

theorem searchPlaces_of_request_eq (http : Http) (key : Option String) (c l c0 l0 : String)
    (h : searchRequest key c l = searchRequest key c0 l0) :
    searchPlaces http key c l = searchPlaces http key c0 l0 := by
  unfold searchPlaces
  rw [h]

theorem mem_sweepTraceOver_search (http : Http) (key : Option String)
    (locations types : List String) (c l : String) (hc : c ∈ types) (hl : l ∈ locations) :
    Effect.get (searchRequest key c l) ∈ sweepTraceOver http key locations types := by
  unfold sweepTraceOver
  rw [List.mem_flatMap]
  refine ⟨c, hc, ?_⟩
  rw [List.mem_flatMap]
  exact ⟨l, hl, by simp [comboTrace]⟩

/-- C8: with a key and otherwise iterable search results, if the Place Search
request of a combination `(c0, l0)` throws while every other request is
answered as in a run where that search returned zero candidates, then
`searchPlaces` returns the empty list for `(c0, l0)`, the sweep goes on through
all combinations (the search of each is requested), and the handler answers
with a success response, the same response and effects as in that run. -/
theorem handler_search_failure_is_empty (http http2 : Http) (key : Option String)
    (c0 l0 : String) (message : String)
    (hkey : keyMissing key = false) (hwf : WellFormed http key)
    (hzero : searchPlaces http key c0 l0 = .array [])
    (hfail : http2 (searchRequest key c0 l0) = .rejected message)
    (hother : ∀ r, r ≠ searchRequest key c0 l0 → http2 r = http r) :
    searchPlaces http2 key c0 l0 = .array []
      ∧ handler http2 key = handler http key
      ∧ (∃ data, (handler http2 key).1 = successResponse data)
      ∧ (handler http2 key).1.body.lookup "success" = some (.bool true)
      ∧ (handler http2 key).1.body.lookup "error" = none
      ∧ ∀ c ∈ INFRASTRUCTURE_TYPES, ∀ l ∈ NIGERIA_LOCATIONS,
          Effect.get (searchRequest key c l) ∈ (handler http2 key).2 := by
  have hs : ∀ c l, searchPlaces http2 key c l = searchPlaces http key c l := by
    intro c l
    by_cases hreq : searchRequest key c l = searchRequest key c0 l0
    · rw [searchPlaces_of_request_eq http2 key c l c0 l0 hreq,
        searchPlaces_of_request_eq http key c l c0 l0 hreq,
        searchPlaces_of_rejected http2 key c0 l0 message hfail, hzero]
    · unfold searchPlaces
      rw [hother _ hreq]
  have hd := getPlaceDetails_of_agree http http2 key c0 l0 hother
  have heq := handler_congr http http2 key hs hd
  have hresp := handler_response_of_wellFormed http key hkey hwf
  refine ⟨searchPlaces_of_rejected http2 key c0 l0 message hfail, heq, ?_, ?_, ?_, ?_⟩
  · exact ⟨_, by rw [heq]; exact hresp⟩
  · rw [heq, hresp]
    rfl
  · rw [heq, hresp]
    rfl
  · intro c hc l hl
    rw [heq, handler_effects_of_wellFormed http key hkey hwf]
    exact mem_sweepTraceOver_search http key _ _ c l hc hl

theorem handler_search_failure_is_empty_witness :
    searchPlaces emptyBonnyDownHttp demoKey "flow station" "Bonny, Nigeria" = .array []
      ∧ handler emptyBonnyDownHttp demoKey = handler emptyHttp demoKey
      ∧ (∃ data, (handler emptyBonnyDownHttp demoKey).1 = successResponse data)
      ∧ (handler emptyBonnyDownHttp demoKey).1.body.lookup "success" = some (.bool true)
      ∧ (handler emptyBonnyDownHttp demoKey).1.body.lookup "error" = none
      ∧ ∀ c ∈ INFRASTRUCTURE_TYPES, ∀ l ∈ NIGERIA_LOCATIONS,
          Effect.get (searchRequest demoKey c l) ∈ (handler emptyBonnyDownHttp demoKey).2 :=
  handler_search_failure_is_empty emptyHttp emptyBonnyDownHttp demoKey
    "flow station" "Bonny, Nigeria" "Network Error"
    (by decide) (by decide) (by decide) (by decide)
    (fun r hr => by simp [emptyBonnyDownHttp, failingAt, hr])

theorem mem_sweepTraceOver_details (http : Http) (key : Option String)
    (locations types : List String) (c l : String) (p : Place)
    (hc : c ∈ types) (hl : l ∈ locations) (hp : p ∈ candidates http key c l) :
    Effect.get (detailsRequest key p.place_id) ∈ sweepTraceOver http key locations types := by
  unfold sweepTraceOver
  rw [List.mem_flatMap]
  refine ⟨c, hc, ?_⟩
  rw [List.mem_flatMap]
  refine ⟨l, hl, ?_⟩
  unfold comboTrace
  exact List.mem_cons_of_mem _ (List.mem_append_left _ (List.mem_map.2 ⟨p, hp, rfl⟩))

theorem getPlaceDetails_ne_none_iff (http : Http) (key : Option String) (x : Option String) :
    getPlaceDetails http key x ≠ none
      ↔ ∃ rd d, http (detailsRequest key x) = .resolved rd ∧ rd.result = some d := by
  unfold getPlaceDetails
  cases hreq : http (detailsRequest key x) with
  | rejected message => simp
  | resolved rd =>
    cases hres : rd.result with
    | none => simp [hres]
    | some d => simp [hres]

/-- C4: with a key and every search yielding a list of candidates, the handler
succeeds whatever the detail lookups do, and an id is in its data list exactly
when some combination of `INFRASTRUCTURE_TYPES` and `NIGERIA_LOCATIONS` has a
candidate with that `place_id` and `getPlaceDetails` of the id is present, that
is, the details request resolves with a truthy `result`.  A candidate whose
details request throws, or resolves without a result, gets `null` from
`getPlaceDetails` and contributes no facility; the sweep is not stopped by it:
the search of every combination and the details request of every candidate are
still issued. -/
theorem handler_data_ids_iff (http : Http) (key : Option String)
    (hkey : keyMissing key = false) (hwf : WellFormed http key) :
    ∃ data, (handler http key).1 = successResponse data
      ∧ (∀ x : Option String, x ∈ data.map (·.id) ↔
          ∃ c ∈ INFRASTRUCTURE_TYPES, ∃ l ∈ NIGERIA_LOCATIONS, ∃ p ∈ candidates http key c l,
            p.place_id = x ∧ getPlaceDetails http key x ≠ none)
      ∧ (∀ x : Option String, getPlaceDetails http key x = none → x ∉ data.map (·.id))
      ∧ (∀ x : Option String, getPlaceDetails http key x ≠ none ↔
          ∃ rd d, http (detailsRequest key x) = .resolved rd ∧ rd.result = some d)
      ∧ (∀ (x : Option String) (message : String),
          http (detailsRequest key x) = .rejected message →
          getPlaceDetails http key x = none ∧ x ∉ data.map (·.id))
      ∧ (∀ (x : Option String) (rd : ResponseData),
          http (detailsRequest key x) = .resolved rd → rd.result = none →
          getPlaceDetails http key x = none ∧ x ∉ data.map (·.id))
      ∧ (∀ c ∈ INFRASTRUCTURE_TYPES, ∀ l ∈ NIGERIA_LOCATIONS,
          Effect.get (searchRequest key c l) ∈ (handler http key).2
            ∧ ∀ p ∈ candidates http key c l,
                Effect.get (detailsRequest key p.place_id) ∈ (handler http key).2) := by
  have hiff : ∀ x : Option String,
      x ∈ (uniqueInfrastructure (sweepConcat http key)).map (·.id) ↔
        ∃ c ∈ INFRASTRUCTURE_TYPES, ∃ l ∈ NIGERIA_LOCATIONS, ∃ p ∈ candidates http key c l,
          p.place_id = x ∧ getPlaceDetails http key x ≠ none := by
    intro x
    rw [uniqueInfrastructure_eq_keepFirstById, keepFirstById, mem_ids_keepFirstSeen]
    simp only [List.not_mem_nil, not_false_eq_true, and_true, List.mem_map]
    constructor
    · rintro ⟨g, hg, rfl⟩
      obtain ⟨c, hc, l, hl, p, hp, d, hd, rfl⟩ := (mem_sweepConcat http key g).1 hg
      refine ⟨c, hc, l, hl, p, hp, rfl, ?_⟩
      show getPlaceDetails http key p.place_id ≠ none
      rw [hd]
      simp
    · rintro ⟨c, hc, l, hl, p, hp, rfl, hd⟩
      obtain ⟨d, hd2⟩ := Option.ne_none_iff_exists'.1 hd
      exact ⟨mkFacility c l p d,
        (mem_sweepConcat http key _).2 ⟨c, hc, l, hl, p, hp, d, hd2, rfl⟩, rfl⟩
  have habsent : ∀ x : Option String, getPlaceDetails http key x = none →
      x ∉ (uniqueInfrastructure (sweepConcat http key)).map (·.id) := by
    intro x hx hmem
    obtain ⟨c, -, l, -, p, -, -, hd⟩ := (hiff x).1 hmem
    exact hd hx
  have hrejected : ∀ (x : Option String) (message : String),
      http (detailsRequest key x) = .rejected message → getPlaceDetails http key x = none := by
    intro x message hreq
    unfold getPlaceDetails
    rw [hreq]
  have hfalsy : ∀ (x : Option String) (rd : ResponseData),
      http (detailsRequest key x) = .resolved rd → rd.result = none →
      getPlaceDetails http key x = none := by
    intro x rd hreq hres
    unfold getPlaceDetails
    rw [hreq]
    exact hres
  refine ⟨_, handler_response_of_wellFormed http key hkey hwf, hiff, habsent,
    getPlaceDetails_ne_none_iff http key, ?_, ?_, ?_⟩
  · intro x message hreq
    exact ⟨hrejected x message hreq, habsent x (hrejected x message hreq)⟩
  · intro x rd hreq hres
    exact ⟨hfalsy x rd hreq hres, habsent x (hfalsy x rd hreq hres)⟩
  · intro c hc l hl
    rw [handler_effects_of_wellFormed http key hkey hwf]
    exact ⟨mem_sweepTraceOver_search http key _ _ c l hc hl,
      fun p hp => mem_sweepTraceOver_details http key _ _ c l p hc hl hp⟩

theorem handler_data_ids_iff_witness :
    (demoHttp (detailsRequest demoKey (some "Y")) = .rejected "Network Error"
      ∧ (⟨some "Y"⟩ : Place) ∈ candidates demoHttp demoKey "gas processing plant" "Lagos, Nigeria")
    ∧ ∃ data, (handler demoHttp demoKey).1 = successResponse data
      ∧ (∀ x : Option String, x ∈ data.map (·.id) ↔
          ∃ c ∈ INFRASTRUCTURE_TYPES, ∃ l ∈ NIGERIA_LOCATIONS,
            ∃ p ∈ candidates demoHttp demoKey c l,
              p.place_id = x ∧ getPlaceDetails demoHttp demoKey x ≠ none)
      ∧ (∀ x : Option String, getPlaceDetails demoHttp demoKey x = none → x ∉ data.map (·.id))
      ∧ (∀ x : Option String, getPlaceDetails demoHttp demoKey x ≠ none ↔
          ∃ rd d, demoHttp (detailsRequest demoKey x) = .resolved rd ∧ rd.result = some d)
      ∧ (∀ (x : Option String) (message : String),
          demoHttp (detailsRequest demoKey x) = .rejected message →
          getPlaceDetails demoHttp demoKey x = none ∧ x ∉ data.map (·.id))
      ∧ (∀ (x : Option String) (rd : ResponseData),
          demoHttp (detailsRequest demoKey x) = .resolved rd → rd.result = none →
          getPlaceDetails demoHttp demoKey x = none ∧ x ∉ data.map (·.id))
      ∧ (∀ c ∈ INFRASTRUCTURE_TYPES, ∀ l ∈ NIGERIA_LOCATIONS,
          Effect.get (searchRequest demoKey c l) ∈ (handler demoHttp demoKey).2
            ∧ ∀ p ∈ candidates demoHttp demoKey c l,
                Effect.get (detailsRequest demoKey p.place_id) ∈ (handler demoHttp demoKey).2) :=
  ⟨⟨by decide, by decide⟩, handler_data_ids_iff demoHttp demoKey (by decide) (by decide)⟩

theorem comboFacilities_congr (http http2 : Http) (key : Option String) (c l : String)
    (hs : searchPlaces http2 key c l = searchPlaces http key c l)
    (hd : ∀ x, getPlaceDetails http2 key x = getPlaceDetails http key x) :
    comboFacilities http2 key c l = comboFacilities http key c l := by
  simp only [comboFacilities, candidates, hs, hd]

theorem id_mem_of_mem_comboFacilities (http : Http) (key : Option String) (c l : String)
    (g : Facility) (hg : g ∈ comboFacilities http key c l) :
    g.id ∈ (candidates http key c l).map (·.place_id) := by
  obtain ⟨p, hp, d, -, rfl⟩ := (mem_comboFacilities http key c l g).1 hg
  exact List.mem_map.2 ⟨p, hp, rfl⟩

/-- C9: let `R` be the data list when every search succeeds and `R2` the data
list when only the search request of `(c0, l0)` throws, all other answers being
the same, and let `K` be the ids the search for `(c0, l0)` would have returned.
Then every id of `R` missing from `R2` is in `K`, and `R` and `R2` restricted to
the facilities whose id is not in `K` are the same list. -/
theorem handler_degrades_only_failed_combination (http http2 : Http) (key : Option String)
    (c0 l0 : String) (message : String)
    (hkey : keyMissing key = false) (hwf : WellFormed http key)
    (hfail : http2 (searchRequest key c0 l0) = .rejected message)
    (hother : ∀ r, r ≠ searchRequest key c0 l0 → http2 r = http r) :
    ∃ R R2 : List Facility,
      (handler http key).1 = successResponse R
      ∧ (handler http2 key).1 = successResponse R2
      ∧ (∀ x ∈ R.map (·.id), x ∉ R2.map (·.id) →
          x ∈ (candidates http key c0 l0).map (·.place_id))
      ∧ R.filter (fun g => decide (g.id ∉ (candidates http key c0 l0).map (·.place_id)))
        = R2.filter (fun g => decide (g.id ∉ (candidates http key c0 l0).map (·.place_id))) := by
  have hd := getPlaceDetails_of_agree http http2 key c0 l0 hother
  have hs2 : ∀ c l, searchPlaces http2 key c l
      = if searchRequest key c l = searchRequest key c0 l0 then .array []
        else searchPlaces http key c l := by
    intro c l
    by_cases hreq : searchRequest key c l = searchRequest key c0 l0
    · rw [if_pos hreq, searchPlaces_of_request_eq http2 key c l c0 l0 hreq,
        searchPlaces_of_rejected http2 key c0 l0 message hfail]
    · rw [if_neg hreq]
      unfold searchPlaces
      rw [hother _ hreq]
  have hwf2 : WellFormed http2 key := by
    have hwf1 := hwf
    unfold WellFormed sweepOk at hwf1 ⊢
    rw [List.all_eq_true] at hwf1 ⊢
    intro c hc
    have hrow := hwf1 c hc
    rw [List.all_eq_true] at hrow ⊢
    intro l hl
    rw [hs2 c l]
    split
    · rfl
    · exact hrow l hl
  have hfilter : (sweepConcat http key).filter
        (fun g => decide (g.id ∉ (candidates http key c0 l0).map (·.place_id)))
      = (sweepConcat http2 key).filter
        (fun g => decide (g.id ∉ (candidates http key c0 l0).map (·.place_id))) := by
    unfold sweepConcat sweepConcatOver
    rw [List.filter_flatMap, List.filter_flatMap]
    apply flatMap_congr_mem
    intro c _
    rw [List.filter_flatMap, List.filter_flatMap]
    apply flatMap_congr_mem
    intro l _
    by_cases hreq : searchRequest key c l = searchRequest key c0 l0
    · have h2 : comboFacilities http2 key c l = [] := by
        simp [comboFacilities, candidates, hs2 c l, hreq]
      have hcand : candidates http key c l = candidates http key c0 l0 := by
        simp only [candidates, searchPlaces_of_request_eq http key c l c0 l0 hreq]
      rw [h2, List.filter_nil, List.filter_eq_nil_iff]
      intro g hg
      have := id_mem_of_mem_comboFacilities http key c l g hg
      rw [hcand] at this
      simpa using this
    · have hs : searchPlaces http2 key c l = searchPlaces http key c l := by
        rw [hs2 c l, if_neg hreq]
      rw [comboFacilities_congr http http2 key c l hs hd]
  have hR : (uniqueInfrastructure (sweepConcat http key)).filter
        (fun g => decide (g.id ∉ (candidates http key c0 l0).map (·.place_id)))
      = (uniqueInfrastructure (sweepConcat http2 key)).filter
        (fun g => decide (g.id ∉ (candidates http key c0 l0).map (·.place_id))) := by
    rw [uniqueInfrastructure_eq_keepFirstById, uniqueInfrastructure_eq_keepFirstById,
      keepFirstById, keepFirstById,
      keepFirstSeen_filter
        (fun i => decide (i ∉ (candidates http key c0 l0).map (·.place_id))),
      keepFirstSeen_filter
        (fun i => decide (i ∉ (candidates http key c0 l0).map (·.place_id))),
      hfilter]
  refine ⟨_, _, handler_response_of_wellFormed http key hkey hwf,
    handler_response_of_wellFormed http2 key hkey hwf2, ?_, hR⟩
  intro x hx hx2
  by_contra hK
  obtain ⟨g, hg, rfl⟩ := List.mem_map.1 hx
  have hgf : g ∈ (uniqueInfrastructure (sweepConcat http key)).filter
      (fun g => decide (g.id ∉ (candidates http key c0 l0).map (·.place_id))) :=
    List.mem_filter.2 ⟨hg, by simpa using hK⟩
  rw [hR] at hgf
  exact hx2 (List.mem_map.2 ⟨g, (List.mem_filter.1 hgf).1, rfl⟩)

theorem handler_degrades_only_failed_combination_witness :
    ∃ R R2 : List Facility,
      (handler bonnyHttp demoKey).1 = successResponse R
      ∧ (handler bonnyDownHttp demoKey).1 = successResponse R2
      ∧ (∀ x ∈ R.map (·.id), x ∉ R2.map (·.id) →
          x ∈ (candidates bonnyHttp demoKey "flow station" "Bonny, Nigeria").map (·.place_id))
      ∧ R.filter (fun g => decide (g.id ∉
            (candidates bonnyHttp demoKey "flow station" "Bonny, Nigeria").map (·.place_id)))
        = R2.filter (fun g => decide (g.id ∉
            (candidates bonnyHttp demoKey "flow station" "Bonny, Nigeria").map (·.place_id))) :=
  handler_degrades_only_failed_combination bonnyHttp bonnyDownHttp demoKey
    "flow station" "Bonny, Nigeria" "Network Error"
    (by decide) (by decide) (by decide)
    (fun r hr => by simp [bonnyDownHttp, failingAt, hr])

/-- C10, as stated, fails: neither failure response has a field `success`.
With no key the body is `{error}`; when the sweep throws (here on a `null`
candidate) the body is `{error, details}`. -/
theorem failure_body_lacks_success_field :
    (handler demoHttp none).1.body.lookup "success" = none
      ∧ (handler demoHttp none).1.body.lookup "success" ≠ some (.bool false)
      ∧ (handler nullCandidateHttp demoKey).1
          = { status := 500,
              body := [("error", .str "Failed to fetch infrastructure data"),
                       ("details", .str nullCandidateMessage)] }
      ∧ (handler nullCandidateHttp demoKey).1.body.lookup "success" = none := by
  refine ⟨by decide, by decide, by decide, by decide⟩

/-- C10, amended: on every failure of the handler (a response that is not a
success response: missing key, or an error thrown during the sweep) the status
is 500 and the body has a string field `error` and no field `success`. -/
theorem failure_body_shape (http : Http) (key : Option String)
    (h : (handler http key).1.status ≠ 200) :
    (handler http key).1.status = 500
      ∧ (∃ text, (handler http key).1.body.lookup "error" = some (.str text))
      ∧ (handler http key).1.body.lookup "success" = none := by
  rcases handler_response_cases http key with hc | ⟨m, hf⟩ | ⟨data, hs⟩
  · rw [hc]
    exact ⟨rfl, ⟨_, rfl⟩, rfl⟩
  · rw [hf]
    exact ⟨rfl, ⟨_, rfl⟩, rfl⟩
  · rw [hs] at h
    exact absurd rfl h

theorem failure_body_shape_witness :
    (handler nullCandidateHttp demoKey).1.status ≠ 200
      ∧ (handler nullCandidateHttp demoKey).1.status = 500
      ∧ (∃ text, (handler nullCandidateHttp demoKey).1.body.lookup "error" = some (.str text))
      ∧ (handler nullCandidateHttp demoKey).1.body.lookup "success" = none :=
  ⟨by decide, failure_body_shape nullCandidateHttp demoKey (by decide)⟩

theorem sweepTraceOver_eq_flatMap (http : Http) (key : Option String)
    (locations types : List String) :
    sweepTraceOver http key locations types
      = (types.flatMap fun c => locations.map fun l => (c, l)).flatMap
          fun cl => comboTrace http key cl.1 cl.2 := by
  unfold sweepTraceOver
  induction types with
  | nil => simp
  | cons c rest ih =>
    simp only [List.flatMap_cons, List.flatMap_append, ih, List.flatMap_map]

theorem filter_isSearchCall_comboTrace (http : Http) (key : Option String) (c l : String) :
    (comboTrace http key c l).filter Effect.isSearchCall
      = [Effect.get (searchRequest key c l)] := by
  have hdetails : ∀ places : List Place,
      (places.map fun place => Effect.get (detailsRequest key place.place_id)).filter
        Effect.isSearchCall = [] := by
    intro places
    rw [List.filter_eq_nil_iff]
    intro e he
    obtain ⟨p, -, rfl⟩ := List.mem_map.1 he
    simp [Effect.isSearchCall, detailsRequest]
  simp only [comboTrace, List.filter_cons, List.filter_append, hdetails]
  simp [Effect.isSearchCall, searchRequest]

/-- C11: with a key and no unexpected error, the Place Search calls of the
handler are exactly one per combination, in category-major, location-minor
order, 6 x 10 = 60 of them whatever the responses are, and the query text of
the call for `(c, l)` is `c`, a single space, then `l`. -/
theorem handler_search_calls (http : Http) (key : Option String)
    (hkey : keyMissing key = false) (hwf : WellFormed http key) :
    (handler http key).2.filter Effect.isSearchCall
        = (INFRASTRUCTURE_TYPES.flatMap fun c => NIGERIA_LOCATIONS.map fun l =>
            Effect.get (searchRequest key c l))
      ∧ ((handler http key).2.filter Effect.isSearchCall).length = 60
      ∧ INFRASTRUCTURE_TYPES.length = 6 ∧ NIGERIA_LOCATIONS.length = 10
      ∧ ∀ c l : String,
          (searchRequest key c l).params.lookup "query" = some (some (c ++ " " ++ l)) := by
  have hcalls : (handler http key).2.filter Effect.isSearchCall
      = (INFRASTRUCTURE_TYPES.flatMap fun c => NIGERIA_LOCATIONS.map fun l =>
          Effect.get (searchRequest key c l)) := by
    rw [handler_effects_of_wellFormed http key hkey hwf, sweepTraceOver, List.filter_flatMap]
    apply flatMap_congr_mem
    intro c _
    rw [List.filter_flatMap]
    simp only [filter_isSearchCall_comboTrace]
    induction NIGERIA_LOCATIONS with
    | nil => rfl
    | cons l rest ih => simp [List.flatMap_cons, ih]
  refine ⟨hcalls, ?_, rfl, rfl, fun c l => rfl⟩
  rw [hcalls]
  simp [INFRASTRUCTURE_TYPES, NIGERIA_LOCATIONS]

theorem handler_search_calls_witness :
    (handler demoHttp demoKey).2.filter Effect.isSearchCall
        = (INFRASTRUCTURE_TYPES.flatMap fun c => NIGERIA_LOCATIONS.map fun l =>
            Effect.get (searchRequest demoKey c l))
      ∧ ((handler demoHttp demoKey).2.filter Effect.isSearchCall).length = 60
      ∧ INFRASTRUCTURE_TYPES.length = 6 ∧ NIGERIA_LOCATIONS.length = 10
      ∧ ∀ c l : String,
          (searchRequest demoKey c l).params.lookup "query" = some (some (c ++ " " ++ l)) :=
  handler_search_calls demoHttp demoKey (by decide) (by decide)

theorem detailCalls_no_search_no_sleep (http : Http) (key : Option String) (c l : String) :
    ∀ e ∈ detailCalls http key c l, e.isSearchCall = false ∧ e.isSleep = false := by
  intro e he
  obtain ⟨p, -, rfl⟩ := List.mem_map.1 he
  simp [Effect.isSearchCall, Effect.isSleep, detailsRequest]

theorem filter_isSleep_comboTrace (http : Http) (key : Option String) (c l : String) :
    (comboTrace http key c l).filter Effect.isSleep = [Effect.sleep 1000] := by
  have hdetails : (detailCalls http key c l).filter Effect.isSleep = [] := by
    rw [List.filter_eq_nil_iff]
    intro e he
    simp [(detailCalls_no_search_no_sleep http key c l e he).2]
  have hform : comboTrace http key c l
      = Effect.get (searchRequest key c l) :: (detailCalls http key c l ++ [Effect.sleep 1000]) :=
    rfl
  rw [hform, List.filter_cons, List.filter_append, hdetails]
  simp [Effect.isSleep]

theorem runPending_append (p : Pending) (a b : List Step) :
    runPending p (a ++ b) = (runPending p a).bind fun q => runPending q b := by
  induction a generalizing p with
  | nil => rfl
  | cons s rest ih =>
    simp only [List.cons_append, runPending]
    cases p.step s with
    | none => rfl
    | some q => exact ih q

theorem runPending_awaitCall (req : Request) :
    runPending .idle (awaitCall req) = some .idle := by
  simp [awaitCall, runPending, Pending.step]

theorem runPending_awaitTimer (ms : Nat) :
    runPending .idle (awaitTimer ms) = some .idle := by
  simp [awaitTimer, runPending, Pending.step]

/-- Two calls issued before the first settles, as a parallel lookup would do,
are refused. -/
theorem runPending_refuses_overlap (a b : Request) :
    runPending .idle [.issued a, .issued b, .settled a, .settled b] = none := by
  simp [runPending, Pending.step]

/-- A call issued while the timer of the pause is pending is refused. -/
theorem runPending_refuses_call_during_pause (ms : Nat) (a : Request) :
    runPending .idle [.timerSet ms, .issued a, .settled a, .timerFired ms] = none := by
  simp [runPending, Pending.step]

theorem runPending_placesTimeline (key : Option String) (items : List (Option Place)) :
    runPending .idle (placesTimeline key items).1 = some .idle := by
  induction items with
  | nil => rfl
  | cons x rest ih =>
    cases x with
    | none => rfl
    | some place =>
      simp only [placesTimeline]
      rw [runPending_append, runPending_awaitCall]
      exact ih

theorem runPending_locationsTimeline (http : Http) (key : Option String) (c : String)
    (locations : List String) :
    runPending .idle (locationsTimeline http key c locations).1 = some .idle := by
  induction locations with
  | nil => rfl
  | cons l rest ih =>
    simp only [locationsTimeline]
    cases searchPlaces http key c l with
    | other => exact runPending_awaitCall _
    | array places =>
      simp only []
      split
      · rw [runPending_append, runPending_append, runPending_append, runPending_awaitCall]
        simp only [Option.bind, runPending_placesTimeline, runPending_awaitTimer]
        exact ih
      · rw [runPending_append, runPending_awaitCall]
        exact runPending_placesTimeline key places

theorem runPending_typesTimeline (http : Http) (key : Option String)
    (locations types : List String) :
    runPending .idle (typesTimeline http key locations types).1 = some .idle := by
  induction types with
  | nil => rfl
  | cons c rest ih =>
    simp only [typesTimeline]
    split
    · rw [runPending_append, runPending_locationsTimeline]
      exact ih
    · exact runPending_locationsTimeline http key c locations

/-- In every run of the handler, whatever the world answers, operations never
overlap and nothing is pending at the end. -/
theorem runPending_handlerTimeline (http : Http) (key : Option String) :
    runPending .idle (handlerTimeline http key) = some .idle := by
  unfold handlerTimeline
  split
  · rfl
  · exact runPending_typesTimeline http key _ _

theorem started_awaitCall (req : Request) :
    (awaitCall req).filterMap Step.started = [Effect.get req] := rfl

theorem started_awaitTimer (ms : Nat) :
    (awaitTimer ms).filterMap Step.started = [Effect.sleep ms] := rfl

theorem placesLoop_timeline (http : Http) (key : Option String) (c l : String)
    (items : List (Option Place)) (s : Sweep) :
    (placesLoop http key c l items s).effects
        = s.trace ++ (placesTimeline key items).1.filterMap Step.started
      ∧ (placesLoop http key c l items s).isCompleted = (placesTimeline key items).2 := by
  induction items generalizing s with
  | nil => simp [placesLoop, placesTimeline, Outcome.effects, Outcome.isCompleted]
  | cons x rest ih =>
    cases x with
    | none => simp [placesLoop, placesTimeline, Outcome.effects, Outcome.isCompleted]
    | some place =>
      simp only [placesLoop, placesTimeline, List.filterMap_append, started_awaitCall]
      split
      · rw [(ih _).1, (ih _).2]
        simp
      · rw [(ih _).1, (ih _).2]
        simp

theorem locationsLoop_timeline (http : Http) (key : Option String) (c : String)
    (locations : List String) (s : Sweep) :
    (locationsLoop http key c locations s).effects
        = s.trace ++ (locationsTimeline http key c locations).1.filterMap Step.started
      ∧ (locationsLoop http key c locations s).isCompleted
        = (locationsTimeline http key c locations).2 := by
  induction locations generalizing s with
  | nil => simp [locationsLoop, locationsTimeline, Outcome.effects, Outcome.isCompleted]
  | cons l rest ih =>
    simp only [locationsLoop, locationsTimeline]
    cases hsp : searchPlaces http key c l with
    | other => simp [Outcome.effects, Outcome.isCompleted, started_awaitCall]
    | array places =>
      have hp := placesLoop_timeline http key c l places
        { allInfrastructure := s.allInfrastructure,
          trace := s.trace ++ [Effect.get (searchRequest key c l)] }
      simp only []
      cases hpl : placesLoop http key c l places
          { allInfrastructure := s.allInfrastructure,
            trace := s.trace ++ [Effect.get (searchRequest key c l)] } with
      | threw m t =>
        rw [hpl] at hp
        simp only [Outcome.effects, Outcome.isCompleted] at hp
        simp only [← hp.2, Bool.false_eq_true, if_false, Outcome.effects, Outcome.isCompleted,
          List.filterMap_append, started_awaitCall, hp.1, and_true]
        simp
      | completed s1 =>
        rw [hpl] at hp
        simp only [Outcome.effects, Outcome.isCompleted] at hp
        simp only [← hp.2, if_true, List.filterMap_append, started_awaitCall,
          started_awaitTimer]
        rw [(ih _).1, (ih _).2, hp.1]
        simp

theorem typesLoop_timeline (http : Http) (key : Option String)
    (locations types : List String) (s : Sweep) :
    (typesLoop http key locations types s).effects
        = s.trace ++ (typesTimeline http key locations types).1.filterMap Step.started
      ∧ (typesLoop http key locations types s).isCompleted
        = (typesTimeline http key locations types).2 := by
  induction types generalizing s with
  | nil => simp [typesLoop, typesTimeline, Outcome.effects, Outcome.isCompleted]
  | cons c rest ih =>
    have hl := locationsLoop_timeline http key c locations s
    simp only [typesLoop, typesTimeline]
    cases hll : locationsLoop http key c locations s with
    | threw m t =>
      rw [hll] at hl
      simp only [Outcome.effects, Outcome.isCompleted] at hl
      simp only [← hl.2, Bool.false_eq_true, if_false, Outcome.effects, Outcome.isCompleted,
        hl.1, and_true]
    | completed s1 =>
      rw [hll] at hl
      simp only [Outcome.effects, Outcome.isCompleted] at hl
      simp only [← hl.2, if_true, List.filterMap_append]
      rw [(ih s1).1, (ih s1).2, hl.1]
      simp

/-- The effects of the handler are the operations its timeline starts, in the
same order, for every world and key. -/
theorem started_handlerTimeline (http : Http) (key : Option String) :
    (handlerTimeline http key).filterMap Step.started = (handler http key).2 := by
  have ht := typesLoop_timeline http key NIGERIA_LOCATIONS INFRASTRUCTURE_TYPES
    { allInfrastructure := [], trace := [] }
  unfold handlerTimeline handler
  split
  · rfl
  · cases hrun : typesLoop http key NIGERIA_LOCATIONS INFRASTRUCTURE_TYPES
        { allInfrastructure := [], trace := [] } with
    | threw m t =>
      rw [hrun] at ht
      simp only [Outcome.effects, List.nil_append] at ht
      simp only [ht.1]
    | completed s1 =>
      rw [hrun] at ht
      simp only [Outcome.effects, List.nil_append] at ht
      simp only [ht.1]

theorem placesTimeline_of_all_some (key : Option String) (items : List (Option Place))
    (h : items.all Option.isSome = true) :
    placesTimeline key items
      = ((items.filterMap id).flatMap fun place =>
          awaitCall (detailsRequest key place.place_id), true) := by
  induction items with
  | nil => rfl
  | cons x rest ih =>
    cases x with
    | none => simp at h
    | some place =>
      have hrest : rest.all Option.isSome = true := by simpa using h
      simp [placesTimeline, ih hrest]

theorem locationsTimeline_of_ok (http : Http) (key : Option String) (c : String)
    (locations : List String)
    (h : (locations.all fun l => resultsOk (searchPlaces http key c l)) = true) :
    locationsTimeline http key c locations
      = (locations.flatMap fun l => comboTimeline http key c l, true) := by
  induction locations with
  | nil => rfl
  | cons l rest ih =>
    rw [List.all_cons, Bool.and_eq_true] at h
    obtain ⟨hl, hrest⟩ := h
    simp only [locationsTimeline]
    cases hsp : searchPlaces http key c l with
    | other => simp [hsp, resultsOk] at hl
    | array items =>
      have hitems : items.all Option.isSome = true := by simpa [hsp, resultsOk] using hl
      simp only [placesTimeline_of_all_some key items hitems, if_true, ih hrest,
        List.flatMap_cons, comboTimeline, candidates, hsp]

theorem typesTimeline_of_ok (http : Http) (key : Option String)
    (locations types : List String) (h : sweepOk http key locations types = true) :
    typesTimeline http key locations types
      = (types.flatMap fun c => locations.flatMap fun l => comboTimeline http key c l,
          true) := by
  induction types with
  | nil => rfl
  | cons c rest ih =>
    simp only [sweepOk, List.all_cons, Bool.and_eq_true] at h
    obtain ⟨hc, hrest⟩ := h
    simp only [typesTimeline, locationsTimeline_of_ok http key c locations hc, if_true,
      ih hrest, List.flatMap_cons]

theorem handlerTimeline_of_wellFormed (http : Http) (key : Option String)
    (hkey : keyMissing key = false) (hwf : WellFormed http key) :
    handlerTimeline http key
      = sweepOrder.flatMap fun cl => comboTimeline http key cl.1 cl.2 := by
  unfold handlerTimeline
  rw [hkey]
  simp only [Bool.false_eq_true, if_false, typesTimeline_of_ok http key _ _ hwf, sweepOrder]
  induction INFRASTRUCTURE_TYPES with
  | nil => rfl
  | cons c rest ih =>
    simp only [List.flatMap_cons, List.flatMap_append, ih, List.flatMap_map]

/-- C12: with a key and no unexpected error, the effects of the handler are,
combination after combination in sweep order, the search call, then the detail
calls of that combination, then one pause of 1000 ms; so between the calls of
one combination and the search call of the next there is exactly one pause,
everything issued before that pause belongs to that combination or an earlier
one, and every pause is 1000 ms (at least one second).  On the timeline of the
run, which records when each awaited operation starts and completes, every
combination is its awaited search, its awaited detail calls, then the awaited
pause; the operations the timeline starts are the effects of the handler, and
operations never overlap: a call is issued or the timer set only when nothing
is pending, at every moment of the run, so no calls are ever in flight
together and no call is issued before the pause has elapsed. -/
theorem handler_effects_paced (http : Http) (key : Option String)
    (hkey : keyMissing key = false) (hwf : WellFormed http key) :
    (handler http key).2
        = (sweepOrder.flatMap fun cl =>
            Effect.get (searchRequest key cl.1 cl.2)
              :: (detailCalls http key cl.1 cl.2 ++ [Effect.sleep 1000]))
      ∧ (∀ (pre post : List (String × String)) (cl nxt : String × String),
          sweepOrder = pre ++ cl :: nxt :: post →
          (handler http key).2
            = (pre.flatMap fun cl => comboTrace http key cl.1 cl.2)
              ++ Effect.get (searchRequest key cl.1 cl.2) :: detailCalls http key cl.1 cl.2
              ++ [Effect.sleep 1000]
              ++ Effect.get (searchRequest key nxt.1 nxt.2)
                :: (detailCalls http key nxt.1 nxt.2 ++ [Effect.sleep 1000]
                    ++ post.flatMap fun cl => comboTrace http key cl.1 cl.2))
      ∧ (∀ c l, ∀ e ∈ detailCalls http key c l, e.isSearchCall = false ∧ e.isSleep = false)
      ∧ (∀ ms, Effect.sleep ms ∈ (handler http key).2 → ms = 1000 ∧ 1000 ≤ ms)
      ∧ ((handler http key).2.filter Effect.isSleep).length = 60
      ∧ handlerTimeline http key
        = (sweepOrder.flatMap fun cl =>
            [Step.issued (searchRequest key cl.1 cl.2), Step.settled (searchRequest key cl.1 cl.2)]
              ++ ((candidates http key cl.1 cl.2).flatMap fun place =>
                    [Step.issued (detailsRequest key place.place_id),
                     Step.settled (detailsRequest key place.place_id)])
              ++ [Step.timerSet 1000, Step.timerFired 1000])
      ∧ (handlerTimeline http key).filterMap Step.started = (handler http key).2
      ∧ runPending .idle (handlerTimeline http key) = some .idle
      ∧ (∀ before after : List Step, handlerTimeline http key = before ++ after →
          ∃ pending, runPending .idle before = some pending) := by
  have htrace : (handler http key).2
      = sweepOrder.flatMap fun cl => comboTrace http key cl.1 cl.2 := by
    rw [handler_effects_of_wellFormed http key hkey hwf, sweepTraceOver_eq_flatMap]
    rfl
  have hsleeps : (handler http key).2.filter Effect.isSleep
      = sweepOrder.map fun _ => Effect.sleep 1000 := by
    rw [htrace, List.filter_flatMap]
    simp only [filter_isSleep_comboTrace]
    induction sweepOrder with
    | nil => rfl
    | cons cl rest ih => simp [List.flatMap_cons, ih]
  refine ⟨htrace, ?_, detailCalls_no_search_no_sleep http key, ?_, ?_,
    handlerTimeline_of_wellFormed http key hkey hwf, started_handlerTimeline http key,
    runPending_handlerTimeline http key, ?_⟩
  · intro pre post cl nxt hsplit
    rw [htrace, hsplit]
    simp [List.flatMap_append, List.flatMap_cons, comboTrace, detailCalls]
  · intro ms hms
    have hmem : Effect.sleep ms ∈ (handler http key).2.filter Effect.isSleep :=
      List.mem_filter.2 ⟨hms, rfl⟩
    rw [hsleeps] at hmem
    obtain ⟨_, -, heq⟩ := List.mem_map.1 hmem
    have : ms = 1000 := by
      cases heq
      rfl
    omega
  · rw [hsleeps]
    simp [sweepOrder, INFRASTRUCTURE_TYPES, NIGERIA_LOCATIONS]
  · intro before after hsplit
    have hrun := runPending_handlerTimeline http key
    rw [hsplit, runPending_append] at hrun
    cases hb : runPending .idle before with
    | none => simp [hb] at hrun
    | some pending => exact ⟨pending, rfl⟩

theorem handler_effects_paced_witness :
    (handler demoHttp demoKey).2
        = (sweepOrder.flatMap fun cl =>
            Effect.get (searchRequest demoKey cl.1 cl.2)
              :: (detailCalls demoHttp demoKey cl.1 cl.2 ++ [Effect.sleep 1000]))
      ∧ (∀ (pre post : List (String × String)) (cl nxt : String × String),
          sweepOrder = pre ++ cl :: nxt :: post →
          (handler demoHttp demoKey).2
            = (pre.flatMap fun cl => comboTrace demoHttp demoKey cl.1 cl.2)
              ++ Effect.get (searchRequest demoKey cl.1 cl.2)
                :: detailCalls demoHttp demoKey cl.1 cl.2
              ++ [Effect.sleep 1000]
              ++ Effect.get (searchRequest demoKey nxt.1 nxt.2)
                :: (detailCalls demoHttp demoKey nxt.1 nxt.2 ++ [Effect.sleep 1000]
                    ++ post.flatMap fun cl => comboTrace demoHttp demoKey cl.1 cl.2))
      ∧ (∀ c l, ∀ e ∈ detailCalls demoHttp demoKey c l,
          e.isSearchCall = false ∧ e.isSleep = false)
      ∧ (∀ ms, Effect.sleep ms ∈ (handler demoHttp demoKey).2 → ms = 1000 ∧ 1000 ≤ ms)
      ∧ ((handler demoHttp demoKey).2.filter Effect.isSleep).length = 60
      ∧ handlerTimeline demoHttp demoKey
        = (sweepOrder.flatMap fun cl =>
            [Step.issued (searchRequest demoKey cl.1 cl.2),
             Step.settled (searchRequest demoKey cl.1 cl.2)]
              ++ ((candidates demoHttp demoKey cl.1 cl.2).flatMap fun place =>
                    [Step.issued (detailsRequest demoKey place.place_id),
                     Step.settled (detailsRequest demoKey place.place_id)])
              ++ [Step.timerSet 1000, Step.timerFired 1000])
      ∧ (handlerTimeline demoHttp demoKey).filterMap Step.started = (handler demoHttp demoKey).2
      ∧ runPending .idle (handlerTimeline demoHttp demoKey) = some .idle
      ∧ (∀ before after : List Step, handlerTimeline demoHttp demoKey = before ++ after →
          ∃ pending, runPending .idle before = some pending) :=
  handler_effects_paced demoHttp demoKey (by decide) (by decide)

theorem placesLoop_threw (http : Http) (key : Option String) (c l : String)
    (items : List (Option Place)) (s : Sweep)
    (h : items.all Option.isSome = false) :
    placesLoop http key c l items s
      = .threw nullCandidateMessage
          (s.trace ++ ((items.takeWhile Option.isSome).filterMap id).map fun place =>
            Effect.get (detailsRequest key place.place_id)) := by
  induction items generalizing s with
  | nil => simp at h
  | cons x rest ih =>
    cases x with
    | none => simp [placesLoop, List.takeWhile]
    | some place =>
      have hrest : rest.all Option.isSome = false := by simpa using h
      simp only [placesLoop]
      split
      · rw [ih _ hrest]
        simp [List.takeWhile]
      · rw [ih _ hrest]
        simp [List.takeWhile]

theorem locationsLoop_threw (http : Http) (key : Option String) (c : String)
    (lpre lpost : List String) (l : String) (message : String) (reached : List Place)
    (s : Sweep)
    (hpre : (lpre.all fun l => resultsOk (searchPlaces http key c l)) = true)
    (hthrow : throwPoint (searchPlaces http key c l) = some (message, reached)) :
    locationsLoop http key c (lpre ++ l :: lpost) s
      = .threw message
          (s.trace ++ (lpre.flatMap fun l => comboTrace http key c l)
            ++ Effect.get (searchRequest key c l)
              :: reached.map fun place => Effect.get (detailsRequest key place.place_id)) := by
  induction lpre generalizing s with
  | nil =>
    simp only [List.nil_append, locationsLoop, List.flatMap_nil, List.append_nil]
    cases hsp : searchPlaces http key c l with
    | other =>
      rw [hsp] at hthrow
      simp only [throwPoint, Option.some.injEq, Prod.mk.injEq] at hthrow
      obtain ⟨rfl, rfl⟩ := hthrow
      simp
    | array items =>
      rw [hsp] at hthrow
      simp only [throwPoint] at hthrow
      by_cases hall : items.all Option.isSome = true
      · simp [hall] at hthrow
      · have hfalse : items.all Option.isSome = false := by simpa using hall
        simp only [hfalse, Bool.false_eq_true, if_false, Option.some.injEq,
          Prod.mk.injEq] at hthrow
        obtain ⟨rfl, rfl⟩ := hthrow
        simp only [placesLoop_threw http key c l items _ hfalse]
        simp
  | cons l1 rest ih =>
    rw [List.all_cons, Bool.and_eq_true] at hpre
    obtain ⟨hl1, hrest⟩ := hpre
    simp only [List.cons_append, locationsLoop]
    cases hsp : searchPlaces http key c l1 with
    | other => simp [hsp, resultsOk] at hl1
    | array items =>
      have hitems : items.all Option.isSome = true := by simpa [hsp, resultsOk] using hl1
      have hc := placesLoop_isCompleted http key c l1 items
        { allInfrastructure := s.allInfrastructure,
          trace := s.trace ++ [Effect.get (searchRequest key c l1)] }
      have hf := placesLoop_effects http key c l1 items
        { allInfrastructure := s.allInfrastructure,
          trace := s.trace ++ [Effect.get (searchRequest key c l1)] } hitems
      cases hpl : placesLoop http key c l1 items
          { allInfrastructure := s.allInfrastructure,
            trace := s.trace ++ [Effect.get (searchRequest key c l1)] } with
      | threw m t =>
        rw [hpl, hitems] at hc
        simp [Outcome.isCompleted] at hc
      | completed s1 =>
        rw [hpl] at hf
        simp only [Outcome.effects] at hf
        simp only [hpl, List.append_eq]
        rw [ih _ hrest]
        simp [hf, comboTrace, candidates, hsp]

theorem typesLoop_threw (http : Http) (key : Option String) (locations : List String)
    (tpre tpost lpre lpost : List String) (c l : String) (message : String)
    (reached : List Place) (s : Sweep)
    (hlocations : locations = lpre ++ l :: lpost)
    (htpre : sweepOk http key locations tpre = true)
    (hlpre : (lpre.all fun l => resultsOk (searchPlaces http key c l)) = true)
    (hthrow : throwPoint (searchPlaces http key c l) = some (message, reached)) :
    typesLoop http key locations (tpre ++ c :: tpost) s
      = .threw message
          (s.trace ++ sweepTraceOver http key locations tpre
            ++ (lpre.flatMap fun l => comboTrace http key c l)
            ++ Effect.get (searchRequest key c l)
              :: reached.map fun place => Effect.get (detailsRequest key place.place_id)) := by
  induction tpre generalizing s with
  | nil =>
    simp only [List.nil_append, typesLoop, sweepTraceOver, List.flatMap_nil, List.append_nil]
    rw [hlocations, locationsLoop_threw http key c lpre lpost l message reached s hlpre hthrow]
  | cons c1 rest ih =>
    simp only [sweepOk, List.all_cons, Bool.and_eq_true] at htpre
    obtain ⟨hc1, hrest⟩ := htpre
    have hl := locationsLoop_isCompleted http key c1 locations s
    have hf := locationsLoop_effects http key c1 locations s hc1
    simp only [List.cons_append, typesLoop]
    cases hll : locationsLoop http key c1 locations s with
    | threw m t =>
      rw [hll, hc1] at hl
      simp [Outcome.isCompleted] at hl
    | completed s1 =>
      rw [hll] at hf
      simp only [Outcome.effects] at hf
      simp only [hll, List.append_eq]
      rw [ih s1 hrest, hf]
      simp [sweepTraceOver]

theorem exists_first_failing {α : Type} (p : α → Bool) (xs : List α)
    (h : xs.all p = false) :
    ∃ pre x post, xs = pre ++ x :: post ∧ pre.all p = true ∧ p x = false := by
  induction xs with
  | nil => simp at h
  | cons a rest ih =>
    by_cases ha : p a = true
    · have hrest : rest.all p = false := by simpa [ha] using h
      obtain ⟨pre, x, post, hsplit, hpre, hx⟩ := ih hrest
      exact ⟨a :: pre, x, post, by rw [hsplit]; rfl, by simp [ha, hpre], hx⟩
    · exact ⟨[], a, rest, rfl, rfl, by simpa using ha⟩

theorem throwPoint_isSome_of_not_ok (results : Results) (h : resultsOk results = false) :
    ∃ message reached, throwPoint results = some (message, reached) := by
  cases results with
  | other => exact ⟨_, _, rfl⟩
  | array items =>
    have hitems : items.all Option.isSome = false := by simpa [resultsOk] using h
    refine ⟨nullCandidateMessage, (items.takeWhile Option.isSome).filterMap id, ?_⟩
    simp [throwPoint, hitems]

/-- Every sweep that does not complete has a first combination at which it
throws. -/
theorem exists_throw_point_of_not_wellFormed (http : Http) (key : Option String)
    (h : ¬ WellFormed http key) :
    ∃ (tpre tpost lpre lpost : List String) (c l : String) (message : String)
      (reached : List Place),
      INFRASTRUCTURE_TYPES = tpre ++ c :: tpost
        ∧ NIGERIA_LOCATIONS = lpre ++ l :: lpost
        ∧ sweepOk http key NIGERIA_LOCATIONS tpre = true
        ∧ (lpre.all fun l => resultsOk (searchPlaces http key c l)) = true
        ∧ throwPoint (searchPlaces http key c l) = some (message, reached) := by
  have hfalse : sweepOk http key NIGERIA_LOCATIONS INFRASTRUCTURE_TYPES = false := by
    unfold WellFormed at h
    simpa using h
  obtain ⟨tpre, c, tpost, htypes, htpre, hc⟩ := exists_first_failing
    (fun c => NIGERIA_LOCATIONS.all fun l => resultsOk (searchPlaces http key c l))
    INFRASTRUCTURE_TYPES hfalse
  obtain ⟨lpre, l, lpost, hlocations, hlpre, hl⟩ := exists_first_failing
    (fun l => resultsOk (searchPlaces http key c l)) NIGERIA_LOCATIONS hc
  obtain ⟨message, reached, hthrow⟩ := throwPoint_isSome_of_not_ok _ hl
  exact ⟨tpre, tpost, lpre, lpost, c, l, message, reached, htypes, hlocations, htpre, hlpre,
    hthrow⟩

/-- C13: with a key, if the sweep throws in the combination `(c, l)` (its search
result cannot be iterated, or holds a `null` candidate), every earlier
combination having completed, then the handler stops there: its effects are
those of the earlier combinations, the search of `(c, l)` and the detail calls
made before the throw, and nothing else; the response is the failure response
with status 500, the message in the field `details`, and no `data`, `count` or
`success` field, so the facilities accumulated so far are not returned. -/
theorem handler_aborts_on_throw (http : Http) (key : Option String)
    (tpre tpost lpre lpost : List String) (c l : String) (message : String)
    (reached : List Place)
    (hkey : keyMissing key = false)
    (htypes : INFRASTRUCTURE_TYPES = tpre ++ c :: tpost)
    (hlocations : NIGERIA_LOCATIONS = lpre ++ l :: lpost)
    (htpre : sweepOk http key NIGERIA_LOCATIONS tpre = true)
    (hlpre : (lpre.all fun l => resultsOk (searchPlaces http key c l)) = true)
    (hthrow : throwPoint (searchPlaces http key c l) = some (message, reached)) :
    handler http key
        = ({ status := 500,
             body := [("error", .str "Failed to fetch infrastructure data"),
                      ("details", .str message)] },
           sweepTraceOver http key NIGERIA_LOCATIONS tpre
             ++ (lpre.flatMap fun l => comboTrace http key c l)
             ++ Effect.get (searchRequest key c l)
               :: reached.map fun place => Effect.get (detailsRequest key place.place_id))
      ∧ (handler http key).1.body.lookup "data" = none
      ∧ (handler http key).1.body.lookup "count" = none
      ∧ (handler http key).1.body.lookup "success" = none
      ∧ (handler http key).1.body.lookup "details" = some (.str message) := by
  have hrun := typesLoop_threw http key NIGERIA_LOCATIONS tpre tpost lpre lpost c l message
    reached { allInfrastructure := [], trace := [] } hlocations htpre hlpre hthrow
  have hh : handler http key
      = (failureResponse message,
         sweepTraceOver http key NIGERIA_LOCATIONS tpre
           ++ (lpre.flatMap fun l => comboTrace http key c l)
           ++ Effect.get (searchRequest key c l)
             :: reached.map fun place => Effect.get (detailsRequest key place.place_id)) := by
    unfold handler
    rw [hkey, htypes, hrun]
    simp
  rw [hh]
  exact ⟨rfl, rfl, rfl, rfl, rfl⟩

theorem handler_aborts_on_throw_witness :
    handler abortHttp demoKey
        = ({ status := 500,
             body := [("error", .str "Failed to fetch infrastructure data"),
                      ("details", .str nullCandidateMessage)] },
           sweepTraceOver abortHttp demoKey NIGERIA_LOCATIONS []
             ++ (["Lagos, Nigeria"].flatMap fun l =>
                  comboTrace abortHttp demoKey "gas processing plant" l)
             ++ Effect.get (searchRequest demoKey "gas processing plant" "Port Harcourt, Nigeria")
               :: [(⟨some "A"⟩ : Place)].map fun place =>
                    Effect.get (detailsRequest demoKey place.place_id))
      ∧ (handler abortHttp demoKey).1.body.lookup "data" = none
      ∧ (handler abortHttp demoKey).1.body.lookup "count" = none
      ∧ (handler abortHttp demoKey).1.body.lookup "success" = none
      ∧ (handler abortHttp demoKey).1.body.lookup "details" = some (.str nullCandidateMessage) :=
  handler_aborts_on_throw abortHttp demoKey [] INFRASTRUCTURE_TYPES.tail
    ["Lagos, Nigeria"] (NIGERIA_LOCATIONS.drop 2)
    "gas processing plant" "Port Harcourt, Nigeria" nullCandidateMessage [⟨some "A"⟩]
    (by decide) (by decide) (by decide) (by decide) (by decide) (by decide)

/-- C14: for a candidate whose details are present but have no geometry, or a
geometry without location, the record is built without throwing: the step of
the loop appends the facility with id, name, address, type and location set and
both coordinates absent, and goes on with the remaining candidates; the
candidate does not make the loop throw. -/
theorem facility_without_geometry (http : Http) (key : Option String) (c l : String)
    (place : Place) (details : Details) (rest : List (Option Place)) (s : Sweep)
    (hdetails : getPlaceDetails http key place.place_id = some details)
    (hgeometry : details.geometry = none ∨ details.geometry = some { location := none }) :
    mkFacility c l place details
        = { id := place.place_id,
            name := details.name,
            address := details.formatted_address,
            type := c,
            location := l,
            coordinates := { lat := none, lng := none },
            types := details.types,
            website := details.website,
            phone := details.formatted_phone_number }
      ∧ placesLoop http key c l (some place :: rest) s
        = placesLoop http key c l rest
            { allInfrastructure := s.allInfrastructure ++
                [{ id := place.place_id,
                   name := details.name,
                   address := details.formatted_address,
                   type := c,
                   location := l,
                   coordinates := { lat := none, lng := none },
                   types := details.types,
                   website := details.website,
                   phone := details.formatted_phone_number }],
              trace := s.trace ++ [Effect.get (detailsRequest key place.place_id)] }
      ∧ (placesLoop http key c l (some place :: rest) s).isCompleted
        = rest.all Option.isSome := by
  have hmk : mkFacility c l place details
      = { id := place.place_id,
          name := details.name,
          address := details.formatted_address,
          type := c,
          location := l,
          coordinates := { lat := none, lng := none },
          types := details.types,
          website := details.website,
          phone := details.formatted_phone_number } := by
    rcases hgeometry with hg | hg <;> simp [mkFacility, hg]
  refine ⟨hmk, ?_, ?_⟩
  · simp only [placesLoop, hdetails, hmk]
  · rw [placesLoop_isCompleted]
    simp

theorem facility_without_geometry_witness :
    mkFacility "pipeline" "Warri, Nigeria" ⟨some "X"⟩ demoDetails
        = { id := some "X",
            name := demoDetails.name,
            address := demoDetails.formatted_address,
            type := "pipeline",
            location := "Warri, Nigeria",
            coordinates := { lat := none, lng := none },
            types := demoDetails.types,
            website := demoDetails.website,
            phone := demoDetails.formatted_phone_number }
      ∧ placesLoop demoHttp demoKey "pipeline" "Warri, Nigeria" (some ⟨some "X"⟩ :: [])
          { allInfrastructure := [], trace := [] }
        = placesLoop demoHttp demoKey "pipeline" "Warri, Nigeria" []
            { allInfrastructure := [] ++
                [{ id := some "X",
                   name := demoDetails.name,
                   address := demoDetails.formatted_address,
                   type := "pipeline",
                   location := "Warri, Nigeria",
                   coordinates := { lat := none, lng := none },
                   types := demoDetails.types,
                   website := demoDetails.website,
                   phone := demoDetails.formatted_phone_number }],
              trace := [] ++ [Effect.get (detailsRequest demoKey (some "X"))] }
      ∧ (placesLoop demoHttp demoKey "pipeline" "Warri, Nigeria" (some ⟨some "X"⟩ :: [])
          { allInfrastructure := [], trace := [] }).isCompleted
        = ([] : List (Option Place)).all Option.isSome :=
  facility_without_geometry demoHttp demoKey "pipeline" "Warri, Nigeria" ⟨some "X"⟩ demoDetails
    [] { allInfrastructure := [], trace := [] } (by decide) (Or.inl rfl)

theorem lookup_eq_none_iff_not_mem_keys (mapping : List (Option String × Facility))
    (k : Option String) :
    mapping.lookup k = none ↔ k ∉ mapping.map Prod.fst := by
  induction mapping with
  | nil => simp
  | cons entry rest ih =>
    obtain ⟨k2, f⟩ := entry
    by_cases hk : k = k2
    · subst hk
      simp [List.lookup]
    · have hne : (k == k2) = false := by simpa using hk
      simp [List.lookup, hne, ih, hk]

theorem foldl_firstSeenStep (flat : List Facility)
    (mapping : List (Option String × Facility)) (emitted : List Facility) :
    (flat.foldl firstSeenStep (mapping, emitted)).2
      = emitted ++ keepFirstSeen (mapping.map Prod.fst) flat := by
  induction flat generalizing mapping emitted with
  | nil => simp [keepFirstSeen]
  | cons f rest ih =>
    rw [List.foldl_cons]
    by_cases hf : f.id ∈ mapping.map Prod.fst
    · have hsome : ∃ g, mapping.lookup f.id = some g := by
        cases hl : mapping.lookup f.id with
        | none => exact absurd hf ((lookup_eq_none_iff_not_mem_keys mapping f.id).1 hl)
        | some g => exact ⟨g, rfl⟩
      obtain ⟨g, hg⟩ := hsome
      have hstep : firstSeenStep (mapping, emitted) f = (mapping, emitted) := by
        simp [firstSeenStep, hg]
      rw [hstep, ih]
      simp [keepFirstSeen, hf]
    · have hnone := (lookup_eq_none_iff_not_mem_keys mapping f.id).2 hf
      have hstep : firstSeenStep (mapping, emitted) f
          = ((f.id, f) :: mapping, emitted ++ [f]) := by
        simp [firstSeenStep, hnone]
      rw [hstep, ih]
      simp [keepFirstSeen, hf]

/-- C15: for every flat facility list, the deduplication of the handler (`filter`
keeping the item at index `i` exactly when `i` is the `findIndex` of the first
element with the same id) returns the same list as a single left-to-right pass
that maintains a mapping from identifier to first-seen facility and emits a
facility only when its id is not yet in the mapping. -/
theorem uniqueInfrastructure_eq_dedupByMapping (flat : List Facility) :
    uniqueInfrastructure flat = dedupByMapping flat := by
  rw [uniqueInfrastructure_eq_keepFirstById, dedupByMapping, foldl_firstSeenStep]
  rfl

/-- C16: facilities built from candidates without `place_id` all have the id
`undefined`, which the deduplication treats as one identifier: when the flat
list holds two or more facilities with an undefined id, exactly one of them
survives, the first in append order, whatever their names and addresses. -/
theorem undefined_ids_collapse (flat : List Facility)
    (h : 2 ≤ (flat.filter fun g => decide (g.id = none)).length) :
    ∃ f, flat.find? (fun g => decide (g.id = none)) = some f
      ∧ (uniqueInfrastructure flat).filter (fun g => decide (g.id = none)) = [f]
      ∧ ((uniqueInfrastructure flat).filter fun g => decide (g.id = none)).length
          < (flat.filter fun g => decide (g.id = none)).length := by
  have hsome : (flat.find? (fun g => decide (g.id = none))).isSome := by
    rw [List.find?_isSome]
    cases hfl : flat.filter (fun g => decide (g.id = none)) with
    | nil => simp [hfl] at h
    | cons g rest =>
      have hg : g ∈ flat.filter (fun g => decide (g.id = none)) := by simp [hfl]
      exact ⟨g, (List.mem_filter.1 hg).1, (List.mem_filter.1 hg).2⟩
  obtain ⟨f, hf⟩ := Option.isSome_iff_exists.1 hsome
  have hone : (uniqueInfrastructure flat).filter (fun g => decide (g.id = none)) = [f] := by
    rw [uniqueInfrastructure_eq_keepFirstById, keepFirstById, filter_id_keepFirstSeen, hf]
    simp
  refine ⟨f, hf, hone, ?_⟩
  rw [hone]
  simpa using h

theorem undefined_ids_collapse_witness :
    ∃ f, [mkFacility "pipeline" "Warri, Nigeria" ⟨none⟩ demoDetails,
          mkFacility "flow station" "Bonny, Nigeria" ⟨none⟩ noGeometryDetails].find?
            (fun g => decide (g.id = none)) = some f
      ∧ (uniqueInfrastructure
          [mkFacility "pipeline" "Warri, Nigeria" ⟨none⟩ demoDetails,
           mkFacility "flow station" "Bonny, Nigeria" ⟨none⟩ noGeometryDetails]).filter
            (fun g => decide (g.id = none)) = [f]
      ∧ ((uniqueInfrastructure
          [mkFacility "pipeline" "Warri, Nigeria" ⟨none⟩ demoDetails,
           mkFacility "flow station" "Bonny, Nigeria" ⟨none⟩ noGeometryDetails]).filter
            fun g => decide (g.id = none)).length
          < ([mkFacility "pipeline" "Warri, Nigeria" ⟨none⟩ demoDetails,
              mkFacility "flow station" "Bonny, Nigeria" ⟨none⟩ noGeometryDetails].filter
                fun g => decide (g.id = none)).length :=
  undefined_ids_collapse _ (by decide)

theorem type_mem_of_mem_handler_data (http : Http) (key : Option String) (data : List Facility)
    (h : (handler http key).1 = successResponse data) :
    ∀ f ∈ data, f.type ∈ INFRASTRUCTURE_TYPES := by
  intro f hf
  rw [handler_data_eq http key data h] at hf
  have hmem : f ∈ sweepConcat http key := (keepFirstSeen_sublist [] _).subset hf
  obtain ⟨c, hc, l, -, p, -, d, -, rfl⟩ := (mem_sweepConcat http key f).1 hmem
  exact hc

theorem lookup_infrastructureTypes_of_mem :
    ∀ t ∈ INFRASTRUCTURE_TYPES, (infrastructureTypes.lookup t).isSome = true := by
  decide

theorem visibleTypes_of_all_checked (dom : Dom)
    (hall : ∀ entry ∈ infrastructureTypes, dom entry.2.filterId = some true) :
    visibleTypes dom = infrastructureTypes.map Prod.fst := by
  unfold visibleTypes
  rw [List.filter_eq_self.2]
  intro entry hentry
  simp [hall entry hentry]

/-- C17: the keys of the client table `infrastructureTypes` are exactly the
entries of the server array `INFRASTRUCTURE_TYPES`; hence, for every facility
list the server returns, `createMarker` finds the entry of the facility in the
table and never takes the default style, and with all six checkboxes checked
`updateSidebar` shows the whole list (`visibleCount = totalCount`); for every
list and every state of the checkboxes the visible list is an order-preserving
sublist of `infrastructureData`. -/
theorem client_table_matches_server :
    (infrastructureTypes.map Prod.fst = INFRASTRUCTURE_TYPES
      ∧ ∀ t, t ∈ infrastructureTypes.map Prod.fst ↔ t ∈ INFRASTRUCTURE_TYPES)
    ∧ (∀ (http : Http) (key : Option String) (data : List Facility),
        (handler http key).1 = successResponse data →
        (∀ f ∈ data, usesDefaultStyle f = false
          ∧ ∃ typeConfig, infrastructureTypes.lookup f.type = some typeConfig
            ∧ markerTypeConfig f = some typeConfig
            ∧ createMarker f
              = some { position := { lat := f.coordinates.lat, lng := f.coordinates.lng },
                       title := f.name,
                       fillColor := typeConfig.color,
                       labelText := typeConfig.icon,
                       facility := f })
        ∧ ∀ dom : Dom, (∀ entry ∈ infrastructureTypes, dom entry.2.filterId = some true) →
            updateSidebar dom data
              = { totalCount := data.length, visibleCount := data.length, facilities := data })
    ∧ (∀ (dom : Dom) (infrastructureData : List Facility),
        (updateSidebar dom infrastructureData).facilities.Sublist infrastructureData
          ∧ (updateSidebar dom infrastructureData).totalCount = infrastructureData.length
          ∧ (updateSidebar dom infrastructureData).visibleCount
              = (updateSidebar dom infrastructureData).facilities.length
          ∧ (updateSidebar dom infrastructureData).visibleCount
              ≤ (updateSidebar dom infrastructureData).totalCount) := by
  have hkeys : infrastructureTypes.map Prod.fst = INFRASTRUCTURE_TYPES := by decide
  refine ⟨⟨hkeys, fun t => by rw [hkeys]⟩, ?_, ?_⟩
  · intro http key data hdata
    have htypes := type_mem_of_mem_handler_data http key data hdata
    constructor
    · intro f hf
      have hsome := lookup_infrastructureTypes_of_mem f.type (htypes f hf)
      obtain ⟨typeConfig, hcfg⟩ := Option.isSome_iff_exists.1 hsome
      refine ⟨by simp [usesDefaultStyle, hcfg], typeConfig, hcfg, ?_, ?_⟩
      · simp [markerTypeConfig, hcfg]
      · simp [createMarker, markerTypeConfig, hcfg]
    · intro dom hall
      have hfilter : data.filter (fun facility => decide (facility.type ∈ visibleTypes dom))
          = data := by
        rw [List.filter_eq_self]
        intro f hf
        rw [visibleTypes_of_all_checked dom hall, hkeys]
        simpa using htypes f hf
      simp only [updateSidebar, hfilter]
  · intro dom infrastructureData
    refine ⟨List.filter_sublist _, rfl, rfl, ?_⟩
    exact List.length_filter_le _ _

theorem client_table_matches_server_witness :
    ((∀ f ∈ [mkFacility "gas processing plant" "Lagos, Nigeria" ⟨some "X"⟩ demoDetails],
        usesDefaultStyle f = false
          ∧ ∃ typeConfig, infrastructureTypes.lookup f.type = some typeConfig
            ∧ markerTypeConfig f = some typeConfig
            ∧ createMarker f
              = some { position := { lat := f.coordinates.lat, lng := f.coordinates.lng },
                       title := f.name,
                       fillColor := typeConfig.color,
                       labelText := typeConfig.icon,
                       facility := f })
      ∧ ∀ dom : Dom, (∀ entry ∈ infrastructureTypes, dom entry.2.filterId = some true) →
          updateSidebar dom
              [mkFacility "gas processing plant" "Lagos, Nigeria" ⟨some "X"⟩ demoDetails]
            = { totalCount := 1, visibleCount := 1,
                facilities :=
                  [mkFacility "gas processing plant" "Lagos, Nigeria" ⟨some "X"⟩ demoDetails] })
    ∧ updateSidebar allChecked
          [mkFacility "gas processing plant" "Lagos, Nigeria" ⟨some "X"⟩ demoDetails]
        = { totalCount := 1, visibleCount := 1,
            facilities :=
              [mkFacility "gas processing plant" "Lagos, Nigeria" ⟨some "X"⟩ demoDetails] }
    ∧ (updateSidebar onlyPipelines
          [mkFacility "gas processing plant" "Lagos, Nigeria" ⟨some "X"⟩ demoDetails]).facilities
        = [] :=
  ⟨client_table_matches_server.2.1 demoHttp demoKey
      [mkFacility "gas processing plant" "Lagos, Nigeria" ⟨some "X"⟩ demoDetails] (by decide),
   (client_table_matches_server.2.1 demoHttp demoKey
      [mkFacility "gas processing plant" "Lagos, Nigeria" ⟨some "X"⟩ demoDetails]
      (by decide)).2 allChecked (fun _ _ => rfl),
   by decide⟩

end OilGasInfra
